import Mathlib

/-!
# pico_lib_oled: the frame-buffer subsystem of `lib_oled/lib_oled.c`

A shallow embedding of the module state of `lib_oled.c` (frame buffer, text
cursor, refresh flag) and of the functions that act on it: `set_pixel`,
`clear_pixel`, `draw_line`, `clear_screen`, `set_cursor_pos`, the stdout
driver `fb_out_chars` and the timer callback `frame_refresh_callback`.

Conventions.
* Memory is a function from byte offsets to byte values; offset `0` is
  `frame_buffer[0]`, offsets `0 .. 1023` are the array, larger offsets are
  whatever lies behind it.
* `uint` values are natural numbers, reduced modulo `2 ^ 32` where the source
  computes a new cursor.
* `draw_line` is given twice. `draw_line` computes on exact integers and
  describes the runs in which no `int` operation overflows; `draw_line_i32`
  reduces every `int` operation to 32 bits (two's complement, as the targets
  do) and describes all runs. Both agree where nothing overflows
  (`draw_line_i32_eq`).
* `char` is unsigned on the targets of the Pico SDK (Arm and RISC-V), so a
  character code is a natural number.
* The header `font.h` is not part of the sources: its constants and table are
  the fields of the parameter `Font`.
-/

namespace LibOled

/-! ## Constants of `lib_oled.h` -/

/-- Panel width in pixels. -/
def NUM_X_PIXELS : Nat := 128

/-- Panel height in pixels. -/
def NUM_Y_PIXELS : Nat := 64

/-- Pixels stored in one byte of the frame buffer. -/
def PIXELS_PER_BYTE : Nat := 8

/-- Tab width in glyph cells. -/
def TABSTOPS : Nat := 4

/-- The value of `sizeof(frame_buffer)`, the array being
`uint8_t frame_buffer[NUM_X_PIXELS * NUM_Y_PIXELS / PIXELS_PER_BYTE]`. -/
def FRAME_BUFFER_SIZE : Nat := NUM_X_PIXELS * NUM_Y_PIXELS / PIXELS_PER_BYTE

/-- Reduction of a natural number to the range of a 32-bit `uint`. -/
def u32 (n : Nat) : Nat := n % 2 ^ 32

/-- Conversion of an `int` argument to the `uint` parameter of a callee. -/
def int_to_uint (z : Int) : Nat := (z % 2 ^ 32).toNat

/-! ## The font header (a parameter) -/

/-- The contents of `font.h`, which the sources do not include: the glyph size
in bytes, the supported range of character codes, the glyph index of the first
supported code, the index used for unsupported codes, and the table itself
(byte at each offset). -/
structure Font where
  FONT_BYTES_PER_CODE : Nat
  FONT_CODE_FIRST : Nat
  FONT_CODE_LAST : Nat
  FONT_INDEX_START : Nat
  FONT_INDEX_UNDEF : Nat
  font : Nat → Nat

/-! ## Module state -/

/-- One start of the DMA channel: the read address it is given (as an offset
from `frame_buffer`) and the transfer count the channel was configured with in
`dma_init`. -/
structure DmaRequest where
  read_addr : Nat
  transfer_count : Nat
deriving DecidableEq

/-- The module variables of `lib_oled.c` that the functions below read or
write. -/
structure State where
  frame_buffer : Nat → Nat
  display_needs_refresh : Bool
  fb_cursor_index : Nat

/-! ## Block operations of `string.h` on the memory model -/

/-- The effect of `memset(mem + dst, v, n)`. -/
def memset (mem : Nat → Nat) (dst v n : Nat) : Nat → Nat :=
  fun i => if dst ≤ i ∧ i < dst + n then v else mem i

/-- The effect of `memmove(mem + dst, mem + src, n)`: the source bytes are read
before any byte is written. -/
def memmove (mem : Nat → Nat) (dst src n : Nat) : Nat → Nat :=
  fun i => if dst ≤ i ∧ i < dst + n then mem (src + (i - dst)) else mem i

/-- The effect of `memcpy(mem + dst, table + src, n)` for a source outside
`mem`. -/
def memcpy (mem : Nat → Nat) (dst : Nat) (table : Nat → Nat) (src n : Nat) : Nat → Nat :=
  fun i => if dst ≤ i ∧ i < dst + n then table (src + (i - dst)) else mem i

/-! ## Graphics functions -/

/-- The function `set_pixel(uint x, uint y)`. -/
def set_pixel (x y : Nat) (s : State) : State :=
  if x < NUM_X_PIXELS ∧ y < NUM_Y_PIXELS then
    { s with
      frame_buffer := fun i =>
        if i = x + (y / 8) * NUM_X_PIXELS then s.frame_buffer i ||| (1 <<< (y % 8))
        else s.frame_buffer i
      display_needs_refresh := true }
  else s

/-- The function `clear_pixel(uint x, uint y)`. The mask `~(1 << (y % 8))`,
cut to the eight bits of the byte it is and-ed into, is `0xFF ^ (1 << (y % 8))`. -/
def clear_pixel (x y : Nat) (s : State) : State :=
  if x < NUM_X_PIXELS ∧ y < NUM_Y_PIXELS then
    { s with
      frame_buffer := fun i =>
        if i = x + (y / 8) * NUM_X_PIXELS then s.frame_buffer i &&& (0xFF ^^^ (1 <<< (y % 8)))
        else s.frame_buffer i
      display_needs_refresh := true }
  else s

/-- The `while (true)` loop of `draw_line` on exact integers (the runs without
`int` overflow; `draw_line_loop_i32` is the loop on 32-bit integers), with a
bound on the number of iterations: `none` when the bound is used up before the
loop breaks. -/
def draw_line_loop : Nat → Int → Int → Int → Int → Int → Int → Int → Int → Int → State →
    Option State
  | 0, _, _, _, _, _, _, _, _, _, _ => none
  | fuel + 1, x0, y0, x1, y1, dx, sx, dy, sy, err, s =>
    let s1 := set_pixel (int_to_uint x0) (int_to_uint y0) s
    if x0 = x1 ∧ y0 = y1 then some s1
    else
      let e2 := 2 * err
      let err1 := if e2 ≥ dy then err + dy else err
      let x0a := if e2 ≥ dy then x0 + sx else x0
      let err2 := if e2 ≤ dx then err1 + dx else err1
      let y0a := if e2 ≤ dx then y0 + sy else y0
      draw_line_loop fuel x0a y0a x1 y1 dx sx dy sy err2 s1

/-- The function `draw_line(int x0, int y0, int x1, int y1)` on exact integers
(the runs without `int` overflow; `draw_line_i32` is the function on 32-bit
integers). The loop is given `|x1 - x0| + |y1 - y0| + 1` iterations, which it
never uses up (`draw_line_loop_some`). -/
def draw_line (x0 y0 x1 y1 : Int) (s : State) : Option State :=
  let dx : Int := |x1 - x0|
  let sx : Int := if x0 < x1 then 1 else -1
  let dy : Int := -|y1 - y0|
  let sy : Int := if y0 < y1 then 1 else -1
  let err : Int := dx + dy
  match draw_line_loop ((x1 - x0).natAbs + (y1 - y0).natAbs + 1)
      x0 y0 x1 y1 dx sx dy sy err s with
  | none => none
  | some s1 => some { s1 with display_needs_refresh := true }

/-- The function `clear_screen()`. -/
def clear_screen (s : State) : State :=
  { frame_buffer := memset s.frame_buffer 0 0 FRAME_BUFFER_SIZE
    fb_cursor_index := 0
    display_needs_refresh := true }

/-- The function `set_cursor_pos(uint text_row, uint text_col)`. -/
def set_cursor_pos (F : Font) (text_row text_col : Nat) (s : State) : State :=
  if text_row < NUM_Y_PIXELS / PIXELS_PER_BYTE ∧
      text_col < NUM_X_PIXELS / F.FONT_BYTES_PER_CODE then
    { s with
      fb_cursor_index := u32 (text_row * NUM_X_PIXELS + text_col * F.FONT_BYTES_PER_CODE) }
  else s

/-! ## The stdout driver -/

/-- The body of the inner `while` loop of `fb_out_chars`: one scroll of the
frame buffer. -/
def scroll_step (s : State) : State :=
  let moved := memmove s.frame_buffer 0 NUM_X_PIXELS (FRAME_BUFFER_SIZE - NUM_X_PIXELS)
  { s with
    frame_buffer := memset moved (FRAME_BUFFER_SIZE - NUM_X_PIXELS - 1) 0x00 NUM_X_PIXELS
    fb_cursor_index := s.fb_cursor_index - NUM_X_PIXELS }

/-- The inner loop `while (fb_cursor_index >= sizeof(frame_buffer))` of
`fb_out_chars`, with a bound on the number of iterations. -/
def scroll_loop : Nat → State → State
  | 0, s => s
  | fuel + 1, s =>
    if s.fb_cursor_index ≥ FRAME_BUFFER_SIZE then scroll_loop fuel (scroll_step s) else s

/-- The index into `font` that `fb_out_chars` computes for a code that is
neither a newline nor a tab. -/
def font_index (F : Font) (code : Nat) : Nat :=
  if code < F.FONT_CODE_FIRST ∨ code > F.FONT_CODE_LAST then F.FONT_INDEX_UNDEF
  else F.FONT_BYTES_PER_CODE * (F.FONT_INDEX_START + code - F.FONT_CODE_FIRST)

/-- One iteration of the outer loop of `fb_out_chars`, for the character
`code`. Every scroll lowers the cursor, so `fb_cursor_index` iterations are
enough for the inner loop (`scroll_loop_cursor_lt`). -/
def fb_out_char (F : Font) (code : Nat) (s : State) : State :=
  let s1 := scroll_loop s.fb_cursor_index s
  if code = 10 then
    { s1 with
      fb_cursor_index := u32 ((s1.fb_cursor_index / NUM_X_PIXELS + 1) * NUM_X_PIXELS) }
  else if code = 9 then
    { s1 with
      fb_cursor_index :=
        u32 ((s1.fb_cursor_index / (TABSTOPS * F.FONT_BYTES_PER_CODE) + 1) * TABSTOPS
          * F.FONT_BYTES_PER_CODE) }
  else
    { s1 with
      frame_buffer :=
        memcpy s1.frame_buffer s1.fb_cursor_index F.font (font_index F code)
          F.FONT_BYTES_PER_CODE
      fb_cursor_index := u32 (s1.fb_cursor_index + F.FONT_BYTES_PER_CODE) }

/-- The outer loop `while (len)` of `fb_out_chars` over the `len` characters of
`buf`. -/
def fb_out_loop (F : Font) : List Nat → State → State
  | [], s => s
  | code :: buf, s => fb_out_loop F buf (fb_out_char F code s)

/-- The function `fb_out_chars(const char *buf, int len)`; the list holds the
`len` characters. -/
def fb_out_chars (F : Font) (buf : List Nat) (s : State) : State :=
  { fb_out_loop F buf s with display_needs_refresh := true }

/-! ## The refresh timer -/

/-- The function `frame_refresh_callback`: the state after the call, the DMA
starts it made, and its return value. -/
def frame_refresh_callback (s : State) : State × List DmaRequest × Bool :=
  if s.display_needs_refresh then
    ({ s with display_needs_refresh := false },
      [{ read_addr := 0, transfer_count := FRAME_BUFFER_SIZE }], true)
  else (s, [], true)

/-! ## Sample data -/

/-- An 8-byte font for the codes 32 to 127 whose table holds `i % 251` at
offset `i`. -/
def sampleFont : Font :=
  { FONT_BYTES_PER_CODE := 8
    FONT_CODE_FIRST := 32
    FONT_CODE_LAST := 127
    FONT_INDEX_START := 1
    FONT_INDEX_UNDEF := 0
    font := fun i => i % 251 }

/-- A state whose display is fully lit, with the cursor at `c`. -/
def litState (c : Nat) : State :=
  { frame_buffer := fun _ => 0xFF
    display_needs_refresh := false
    fb_cursor_index := c }

/-! ## The points of a line -/

/-- The points that the loop of `draw_line` hands to `set_pixel`, in the order
of the calls: the loop `draw_line_loop` (exact integers, the runs without
`int` overflow) with each call recorded instead of made. -/
def draw_line_points : Nat → Int → Int → Int → Int → Int → Int → Int → Int → Int →
    Option (List (Int × Int))
  | 0, _, _, _, _, _, _, _, _, _ => none
  | fuel + 1, x0, y0, x1, y1, dx, sx, dy, sy, err =>
    if x0 = x1 ∧ y0 = y1 then some [(x0, y0)]
    else
      let e2 := 2 * err
      let err1 := if e2 ≥ dy then err + dy else err
      let x0a := if e2 ≥ dy then x0 + sx else x0
      let err2 := if e2 ≤ dx then err1 + dx else err1
      let y0a := if e2 ≤ dx then y0 + sy else y0
      match draw_line_points fuel x0a y0a x1 y1 dx sx dy sy err2 with
      | none => none
      | some pts => some ((x0, y0) :: pts)

/-- The points plotted by `draw_line(x0, y0, x1, y1)` on exact integers, with
the set-up of `draw_line`. -/
def draw_line_plotted (x0 y0 x1 y1 : Int) : Option (List (Int × Int)) :=
  let dx : Int := |x1 - x0|
  let sx : Int := if x0 < x1 then 1 else -1
  let dy : Int := -|y1 - y0|
  let sy : Int := if y0 < y1 then 1 else -1
  let err : Int := dx + dy
  draw_line_points ((x1 - x0).natAbs + (y1 - y0).natAbs + 1) x0 y0 x1 y1 dx sx dy sy err

/-- The calls `set_pixel(x, y)` for the points of a list, in order. -/
def plot_points : List (Int × Int) → State → State
  | [], s => s
  | pt :: pts, s => plot_points pts (set_pixel (int_to_uint pt.1) (int_to_uint pt.2) s)

/-- Two points that differ by at most 1 in `x` and by at most 1 in `y`. -/
def near (u v : Int × Int) : Prop :=
  |v.1 - u.1| ≤ 1 ∧ |v.2 - u.2| ≤ 1

/-! ## Traces of the stdout driver and sequences of calls -/

/-- The value that a 32-bit `int` operation leaves when its exact result is
`z`: the two's-complement value of the low 32 bits, which is what the add,
subtract and shift instructions of the targets produce. It is `z` itself when
`z` is in the range of `int`. -/
def i32 (z : Int) : Int := (z + 2 ^ 31) % 2 ^ 32 - 2 ^ 31

/-- The `while (true)` loop of `draw_line` with every `int` operation reduced
by `i32`, and with a bound on the number of iterations: `none` when the bound
is used up before the loop breaks. -/
def draw_line_loop_i32 : Nat → Int → Int → Int → Int → Int → Int → Int → Int → Int → State →
    Option State
  | 0, _, _, _, _, _, _, _, _, _, _ => none
  | fuel + 1, x0, y0, x1, y1, dx, sx, dy, sy, err, s =>
    let s1 := set_pixel (int_to_uint x0) (int_to_uint y0) s
    if x0 = x1 ∧ y0 = y1 then some s1
    else
      let e2 := i32 (2 * err)
      let err1 := if e2 ≥ dy then i32 (err + dy) else err
      let x0a := if e2 ≥ dy then i32 (x0 + sx) else x0
      let err2 := if e2 ≤ dx then i32 (err1 + dx) else err1
      let y0a := if e2 ≤ dx then i32 (y0 + sy) else y0
      draw_line_loop_i32 fuel x0a y0a x1 y1 dx sx dy sy err2 s1

/-- The function `draw_line(int x0, int y0, int x1, int y1)` on 32-bit
integers, with at most `fuel` iterations of its loop. -/
def draw_line_i32 (fuel : Nat) (x0 y0 x1 y1 : Int) (s : State) : Option State :=
  let dx : Int := i32 |i32 (x1 - x0)|
  let sx : Int := if x0 < x1 then 1 else -1
  let dy : Int := i32 (-(i32 |i32 (y1 - y0)|))
  let sy : Int := if y0 < y1 then 1 else -1
  let err : Int := i32 (dx + dy)
  match draw_line_loop_i32 fuel x0 y0 x1 y1 dx sx dy sy err s with
  | none => none
  | some s1 => some { s1 with display_needs_refresh := true }

/-- The points that the loop `draw_line_loop_i32` hands to `set_pixel`, in the
order of the calls; `none` when the loop does not break within `fuel`
iterations. -/
def draw_line_points_i32 : Nat → Int → Int → Int → Int → Int → Int → Int → Int → Int →
    Option (List (Int × Int))
  | 0, _, _, _, _, _, _, _, _, _ => none
  | fuel + 1, x0, y0, x1, y1, dx, sx, dy, sy, err =>
    if x0 = x1 ∧ y0 = y1 then some [(x0, y0)]
    else
      let e2 := i32 (2 * err)
      let err1 := if e2 ≥ dy then i32 (err + dy) else err
      let x0a := if e2 ≥ dy then i32 (x0 + sx) else x0
      let err2 := if e2 ≤ dx then i32 (err1 + dx) else err1
      let y0a := if e2 ≤ dx then i32 (y0 + sy) else y0
      match draw_line_points_i32 fuel x0a y0a x1 y1 dx sx dy sy err2 with
      | none => none
      | some pts => some ((x0, y0) :: pts)

/-- The points plotted by `draw_line(x0, y0, x1, y1)` on 32-bit integers when
its loop breaks within `fuel` iterations. -/
def draw_line_plotted_i32 (fuel : Nat) (x0 y0 x1 y1 : Int) : Option (List (Int × Int)) :=
  let dx : Int := i32 |i32 (x1 - x0)|
  let sx : Int := if x0 < x1 then 1 else -1
  let dy : Int := i32 (-(i32 |i32 (y1 - y0)|))
  let sy : Int := if y0 < y1 then 1 else -1
  let err : Int := i32 (dx + dy)
  draw_line_points_i32 fuel x0 y0 x1 y1 dx sx dy sy err

/-- The first `n` calls of `set_pixel` that the loop `draw_line_loop_i32` makes
(fewer when it breaks earlier), whether or not it ever breaks. -/
def draw_line_calls_i32 : Nat → Int → Int → Int → Int → Int → Int → Int → Int → Int →
    List (Int × Int)
  | 0, _, _, _, _, _, _, _, _, _ => []
  | n + 1, x0, y0, x1, y1, dx, sx, dy, sy, err =>
    if x0 = x1 ∧ y0 = y1 then [(x0, y0)]
    else
      let e2 := i32 (2 * err)
      let err1 := if e2 ≥ dy then i32 (err + dy) else err
      let x0a := if e2 ≥ dy then i32 (x0 + sx) else x0
      let err2 := if e2 ≤ dx then i32 (err1 + dx) else err1
      let y0a := if e2 ≤ dx then i32 (y0 + sy) else y0
      (x0, y0) :: draw_line_calls_i32 n x0a y0a x1 y1 dx sx dy sy err2

/-- The first `n` calls of `set_pixel` made by `draw_line(x0, y0, x1, y1)` on
32-bit integers. -/
def draw_line_first_calls_i32 (n : Nat) (x0 y0 x1 y1 : Int) : List (Int × Int) :=
  let dx : Int := i32 |i32 (x1 - x0)|
  let sx : Int := if x0 < x1 then 1 else -1
  let dy : Int := i32 (-(i32 |i32 (y1 - y0)|))
  let sy : Int := if y0 < y1 then 1 else -1
  let err : Int := i32 (dx + dy)
  draw_line_calls_i32 n x0 y0 x1 y1 dx sx dy sy err

/-! ## Helper lemmas -/

theorem frame_buffer_size_eq : FRAME_BUFFER_SIZE = 1024 := by decide

theorem num_x_pixels_eq : NUM_X_PIXELS = 128 := rfl

theorem num_y_pixels_eq : NUM_Y_PIXELS = 64 := rfl

theorem testBit_or_one_shiftLeft (b k : Nat) : Nat.testBit (b ||| (1 <<< k)) k = true := by
  simp [Nat.testBit_or, Nat.one_shiftLeft, Nat.testBit_two_pow_self]

theorem testBit_and_not_one_shiftLeft (b k : Nat) (hk : k < 8) :
    Nat.testBit (b &&& (0xFF ^^^ (1 <<< k))) k = false := by
  have h255 : Nat.testBit 255 k = true := by interval_cases k <;> decide
  simp [Nat.testBit_and, Nat.testBit_xor, Nat.one_shiftLeft, Nat.testBit_two_pow_self, h255]

/-! ## Pixel functions -/

/-- C1: for an in-range pixel the byte index `x + (y / 8) * 128` lies inside the
1024-byte frame buffer, bit `y % 8` of that byte is 1 after `set_pixel` and 0
after `clear_pixel`, whatever the buffer held before. -/
theorem set_clear_pixel_bit (x y : Nat) (s : State) (hx : x < 128) (hy : y < 64) :
    x + (y / 8) * 128 < 1024 ∧
    Nat.testBit ((set_pixel x y s).frame_buffer (x + (y / 8) * 128)) (y % 8) = true ∧
    Nat.testBit ((clear_pixel x y s).frame_buffer (x + (y / 8) * 128)) (y % 8) = false := by
  refine ⟨by omega, ?_, ?_⟩
  · simp only [set_pixel, num_x_pixels_eq, num_y_pixels_eq, hx, hy, and_self, if_true]
    exact testBit_or_one_shiftLeft _ _
  · simp only [clear_pixel, num_x_pixels_eq, num_y_pixels_eq, hx, hy, and_self, if_true]
    exact testBit_and_not_one_shiftLeft _ _ (Nat.mod_lt _ (by decide))

/-- Witness of C1 at the bottom-right pixel of a fully lit display. -/
theorem set_clear_pixel_bit_witness :
    127 + (63 / 8) * 128 < 1024 ∧
    Nat.testBit ((set_pixel 127 63 (litState 0)).frame_buffer (127 + (63 / 8) * 128)) (63 % 8)
      = true ∧
    Nat.testBit ((clear_pixel 127 63 (litState 0)).frame_buffer (127 + (63 / 8) * 128)) (63 % 8)
      = false :=
  set_clear_pixel_bit 127 63 (litState 0) (by decide) (by decide)

/-- C2: with `x ≥ 128` or `y ≥ 64` (any `uint` value, so also the values
negative `int` arguments convert to) `set_pixel` and `clear_pixel` return the
state they were given: buffer, cursor and flag are as before. -/
theorem pixel_out_of_range_noop (x y : Nat) (s : State) (h : 128 ≤ x ∨ 64 ≤ y) :
    set_pixel x y s = s ∧ clear_pixel x y s = s := by
  have hc : ¬ (x < NUM_X_PIXELS ∧ y < NUM_Y_PIXELS) := by
    simp only [num_x_pixels_eq, num_y_pixels_eq]; omega
  simp only [set_pixel, clear_pixel, hc, if_false, and_self]

/-- Witness of C2 at the `uint` value of the `int` argument `-1`. -/
theorem pixel_out_of_range_noop_witness :
    set_pixel (int_to_uint (-1)) 5 (litState 3) = litState 3 ∧
    clear_pixel (int_to_uint (-1)) 5 (litState 3) = litState 3 :=
  pixel_out_of_range_noop (int_to_uint (-1)) 5 (litState 3) (Or.inl (by decide))

/-! ## The scroll of the text driver -/

theorem scroll_loop_of_lt (fuel : Nat) (s : State) (h : s.fb_cursor_index < 1024) :
    scroll_loop fuel s = s := by
  cases fuel with
  | zero => rfl
  | succ n =>
    have hc : ¬ s.fb_cursor_index ≥ FRAME_BUFFER_SIZE := by
      rw [frame_buffer_size_eq]; omega
    simp only [scroll_loop, hc, if_false]

theorem scroll_loop_cursor_lt_of_fuel (fuel : Nat) :
    ∀ s : State, s.fb_cursor_index < 1024 + fuel * 128 →
      (scroll_loop fuel s).fb_cursor_index < 1024 := by
  induction fuel with
  | zero => intro s h; simpa [scroll_loop] using h
  | succ n ih =>
    intro s h
    by_cases hc : s.fb_cursor_index ≥ FRAME_BUFFER_SIZE
    · simp only [scroll_loop, hc, if_true]
      apply ih
      rw [frame_buffer_size_eq] at hc
      simp only [scroll_step, num_x_pixels_eq]
      omega
    · simp only [scroll_loop, hc, if_false]
      rw [frame_buffer_size_eq] at hc
      omega

/-- The inner loop of `fb_out_chars` ends with the cursor inside the buffer:
the iteration bound given to it in `fb_out_char` is never the reason it stops. -/
theorem scroll_loop_cursor_lt (s : State) :
    (scroll_loop s.fb_cursor_index s).fb_cursor_index < 1024 :=
  scroll_loop_cursor_lt_of_fuel s.fb_cursor_index s (by omega)

/-- What one scroll does to every byte of the buffer and to the cursor. -/
theorem scroll_step_effect (s : State) :
    (∀ i, i < 895 → (scroll_step s).frame_buffer i = s.frame_buffer (i + 128)) ∧
    (∀ i, 895 ≤ i → i < 1023 → (scroll_step s).frame_buffer i = 0) ∧
    (∀ i, 1023 ≤ i → (scroll_step s).frame_buffer i = s.frame_buffer i) ∧
    (scroll_step s).fb_cursor_index = s.fb_cursor_index - 128 := by
  refine ⟨?_, ?_, ?_, rfl⟩
  · intro i hi
    have h1 : ¬ (1024 - 128 - 1 ≤ i ∧ i < 1024 - 128 - 1 + 128) := by omega
    have h2 : 0 ≤ i ∧ i < 0 + (1024 - 128) := by omega
    simp only [scroll_step, memset, memmove, frame_buffer_size_eq, num_x_pixels_eq, h1, h2,
      if_false, and_self, if_true]
    congr 1
    omega
  · intro i h1 h2
    have h : 1024 - 128 - 1 ≤ i ∧ i < 1024 - 128 - 1 + 128 := by omega
    simp only [scroll_step, memset, frame_buffer_size_eq, num_x_pixels_eq, h, and_self, if_true]
  · intro i hi
    have h1 : ¬ (1024 - 128 - 1 ≤ i ∧ i < 1024 - 128 - 1 + 128) := by omega
    have h2 : ¬ (0 ≤ i ∧ i < 0 + (1024 - 128)) := by omega
    simp only [scroll_step, memset, memmove, frame_buffer_size_eq, num_x_pixels_eq, h1, h2,
      if_false]

/-- C3 (the code departs from it): on a fully lit display with the cursor at
1024 one scroll leaves byte 895 at 0 although the byte 128 places further was
`0xFF`, and leaves byte 1023 of the bottom row at `0xFF`; the same shows after
`clear_screen`, `set_pixel(127, 63)` and nine newlines, where the lit bit of
byte 1023 stays in the bottom row and byte 895 is blank. -/
theorem scroll_step_blanks_one_byte_early :
    (litState 1024).frame_buffer (895 + 128) = 0xFF ∧
    (scroll_step (litState 1024)).frame_buffer 895 = 0 ∧
    (scroll_step (litState 1024)).frame_buffer 1023 = 0xFF ∧
    (scroll_step (litState 1024)).fb_cursor_index = 1024 - 128 ∧
    (fb_out_chars sampleFont (List.replicate 8 10)
      (set_pixel 127 63 (clear_screen (litState 0)))).fb_cursor_index = 1024 ∧
    (fb_out_chars sampleFont (List.replicate 8 10)
      (set_pixel 127 63 (clear_screen (litState 0)))).frame_buffer 1023 = 0x80 ∧
    (fb_out_chars sampleFont (List.replicate 9 10)
      (set_pixel 127 63 (clear_screen (litState 0)))).frame_buffer 895 = 0 ∧
    (fb_out_chars sampleFont (List.replicate 9 10)
      (set_pixel 127 63 (clear_screen (litState 0)))).frame_buffer 1023 = 0x80 := by
  decide

/-! ## Cursor arithmetic -/

theorem u32_of_lt (n : Nat) (h : n < 2 ^ 32) : u32 n = n :=
  Nat.mod_eq_of_lt h

/-- For `d > 0` the number `(c / d + 1) * d` is the least multiple of `d` above `c`. -/
theorem next_multiple_least (c d : Nat) (hd : 0 < d) :
    d ∣ (c / d + 1) * d ∧ c < (c / d + 1) * d ∧
    ∀ m, d ∣ m → c < m → (c / d + 1) * d ≤ m := by
  refine ⟨Dvd.intro_left _ rfl, ?_, ?_⟩
  · have h := Nat.lt_mul_div_succ c hd
    rwa [Nat.mul_comm] at h
  · rintro m ⟨t, rfl⟩ hlt
    have hq : c / d < t := Nat.div_lt_of_lt_mul hlt
    calc (c / d + 1) * d ≤ t * d := Nat.mul_le_mul_right d hq
      _ = d * t := Nat.mul_comm t d

theorem next_multiple_le (c d : Nat) : (c / d + 1) * d ≤ c + d := by
  have h := Nat.div_mul_le_self c d
  rw [Nat.add_mul, Nat.one_mul]
  omega

/-! ## Single characters of the text driver -/

theorem fb_out_char_newline (F : Font) (s : State) (h : s.fb_cursor_index < 1024) :
    fb_out_char F 10 s =
      { s with fb_cursor_index := (s.fb_cursor_index / 128 + 1) * 128 } := by
  have hle : (s.fb_cursor_index / 128 + 1) * 128 < 2 ^ 32 := by omega
  simp only [fb_out_char, scroll_loop_of_lt _ s h, if_true, num_x_pixels_eq, u32_of_lt _ hle]

theorem fb_out_char_tab (F : Font) (s : State) (h : s.fb_cursor_index < 1024)
    (hg : 0 < F.FONT_BYTES_PER_CODE) (hint : TABSTOPS * F.FONT_BYTES_PER_CODE < 2 ^ 31) :
    fb_out_char F 9 s =
      { s with fb_cursor_index :=
          (s.fb_cursor_index / (4 * F.FONT_BYTES_PER_CODE) + 1) * 4 * F.FONT_BYTES_PER_CODE } := by
  have hT : TABSTOPS = 4 := rfl
  rw [hT] at hint
  have h1 := next_multiple_le s.fb_cursor_index (4 * F.FONT_BYTES_PER_CODE)
  rw [← Nat.mul_assoc] at h1
  have hle : (s.fb_cursor_index / (4 * F.FONT_BYTES_PER_CODE) + 1) * 4 * F.FONT_BYTES_PER_CODE
      < 2 ^ 32 := by omega
  have h9 : ¬ (9 : Nat) = 10 := by decide
  simp only [fb_out_char, scroll_loop_of_lt _ s h, h9, if_false, if_true, hT, u32_of_lt _ hle]

theorem fb_out_char_glyph (F : Font) (code : Nat) (s : State) (h : s.fb_cursor_index < 1024)
    (hn : code ≠ 10) (ht : code ≠ 9)
    (hfit : s.fb_cursor_index + F.FONT_BYTES_PER_CODE < 2 ^ 32) :
    fb_out_char F code s =
      { s with
        frame_buffer :=
          memcpy s.frame_buffer s.fb_cursor_index F.font (font_index F code)
            F.FONT_BYTES_PER_CODE
        fb_cursor_index := s.fb_cursor_index + F.FONT_BYTES_PER_CODE } := by
  simp only [fb_out_char, scroll_loop_of_lt _ s h, hn, ht, if_false, u32_of_lt _ hfit]

/-- C5: written at a cursor `c < 1024`, a newline leaves the buffer as it was
and moves the cursor to `(c / 128 + 1) * 128`, the least multiple of 128 above
`c`. -/
theorem newline_moves_to_next_row (F : Font) (s : State) (h : s.fb_cursor_index < 1024) :
    (fb_out_chars F [10] s).frame_buffer = s.frame_buffer ∧
    (fb_out_chars F [10] s).fb_cursor_index = (s.fb_cursor_index / 128 + 1) * 128 ∧
    128 ∣ (fb_out_chars F [10] s).fb_cursor_index ∧
    s.fb_cursor_index < (fb_out_chars F [10] s).fb_cursor_index ∧
    ∀ m, 128 ∣ m → s.fb_cursor_index < m → (fb_out_chars F [10] s).fb_cursor_index ≤ m := by
  have hc : (fb_out_chars F [10] s).fb_cursor_index = (s.fb_cursor_index / 128 + 1) * 128 := by
    simp only [fb_out_chars, fb_out_loop, fb_out_char_newline F s h]
  have hb : (fb_out_chars F [10] s).frame_buffer = s.frame_buffer := by
    simp only [fb_out_chars, fb_out_loop, fb_out_char_newline F s h]
  rw [hc]
  exact ⟨hb, rfl, next_multiple_least s.fb_cursor_index 128 (by decide)⟩

/-- Witness of C5 at the start of the second text row. -/
theorem newline_moves_to_next_row_witness :
    (fb_out_chars sampleFont [10] (litState 128)).frame_buffer = (litState 128).frame_buffer ∧
    (fb_out_chars sampleFont [10] (litState 128)).fb_cursor_index
      = ((litState 128).fb_cursor_index / 128 + 1) * 128 ∧
    128 ∣ (fb_out_chars sampleFont [10] (litState 128)).fb_cursor_index ∧
    (litState 128).fb_cursor_index < (fb_out_chars sampleFont [10] (litState 128)).fb_cursor_index ∧
    ∀ m, 128 ∣ m → (litState 128).fb_cursor_index < m →
      (fb_out_chars sampleFont [10] (litState 128)).fb_cursor_index ≤ m :=
  newline_moves_to_next_row sampleFont (litState 128) (by decide)

/-- C6: written at a cursor `c < 1024`, a tab leaves the buffer as it was and
moves the cursor to `(c / (4 * g) + 1) * 4 * g`, the least multiple of `4 * g`
above `c`, where `g > 0` is the glyph size and `TABSTOPS * g` fits an `int`;
when `4 * g` divides 128 the new cursor is not beyond the start of the next
text row. -/
theorem tab_moves_to_next_stop (F : Font) (s : State) (h : s.fb_cursor_index < 1024)
    (hg : 0 < F.FONT_BYTES_PER_CODE) (hint : TABSTOPS * F.FONT_BYTES_PER_CODE < 2 ^ 31) :
    (fb_out_chars F [9] s).frame_buffer = s.frame_buffer ∧
    (fb_out_chars F [9] s).fb_cursor_index
      = (s.fb_cursor_index / (4 * F.FONT_BYTES_PER_CODE) + 1) * 4 * F.FONT_BYTES_PER_CODE ∧
    4 * F.FONT_BYTES_PER_CODE ∣ (fb_out_chars F [9] s).fb_cursor_index ∧
    s.fb_cursor_index < (fb_out_chars F [9] s).fb_cursor_index ∧
    (∀ m, 4 * F.FONT_BYTES_PER_CODE ∣ m → s.fb_cursor_index < m →
      (fb_out_chars F [9] s).fb_cursor_index ≤ m) ∧
    (4 * F.FONT_BYTES_PER_CODE ∣ 128 →
      (fb_out_chars F [9] s).fb_cursor_index ≤ (s.fb_cursor_index / 128 + 1) * 128) := by
  have hc : (fb_out_chars F [9] s).fb_cursor_index
      = (s.fb_cursor_index / (4 * F.FONT_BYTES_PER_CODE) + 1) * (4 * F.FONT_BYTES_PER_CODE) := by
    simp only [fb_out_chars, fb_out_loop, fb_out_char_tab F s h hg hint, Nat.mul_assoc]
  have hb : (fb_out_chars F [9] s).frame_buffer = s.frame_buffer := by
    simp only [fb_out_chars, fb_out_loop, fb_out_char_tab F s h hg hint]
  have hd : 0 < 4 * F.FONT_BYTES_PER_CODE := by omega
  obtain ⟨hdvd, hlt, hleast⟩ := next_multiple_least s.fb_cursor_index _ hd
  obtain ⟨hrow_dvd, hrow_lt, -⟩ := next_multiple_least s.fb_cursor_index 128 (by decide)
  refine ⟨hb, ?_, ?_, ?_, ?_, ?_⟩
  · rw [hc, Nat.mul_assoc]
  · rw [hc]; exact hdvd
  · rw [hc]; exact hlt
  · rw [hc]; exact hleast
  · intro hdiv
    rw [hc]
    exact hleast _ (Nat.dvd_trans hdiv hrow_dvd) hrow_lt

/-- Witness of C6 with the 8-byte sample font, in the middle of the first tab
field of the second text row. -/
theorem tab_moves_to_next_stop_witness :
    (fb_out_chars sampleFont [9] (litState 136)).frame_buffer = (litState 136).frame_buffer ∧
    (fb_out_chars sampleFont [9] (litState 136)).fb_cursor_index
      = ((litState 136).fb_cursor_index / (4 * sampleFont.FONT_BYTES_PER_CODE) + 1) * 4
        * sampleFont.FONT_BYTES_PER_CODE ∧
    4 * sampleFont.FONT_BYTES_PER_CODE ∣ (fb_out_chars sampleFont [9] (litState 136)).fb_cursor_index ∧
    (litState 136).fb_cursor_index < (fb_out_chars sampleFont [9] (litState 136)).fb_cursor_index ∧
    (∀ m, 4 * sampleFont.FONT_BYTES_PER_CODE ∣ m → (litState 136).fb_cursor_index < m →
      (fb_out_chars sampleFont [9] (litState 136)).fb_cursor_index ≤ m) ∧
    (4 * sampleFont.FONT_BYTES_PER_CODE ∣ 128 →
      (fb_out_chars sampleFont [9] (litState 136)).fb_cursor_index
        ≤ ((litState 136).fb_cursor_index / 128 + 1) * 128) :=
  tab_moves_to_next_stop sampleFont (litState 136) (by decide) (by decide) (by decide)

/-! ## Strings without control codes -/

theorem fb_out_loop_plain (F : Font) (hg : 0 < F.FONT_BYTES_PER_CODE) (buf : List Nat) :
    ∀ s : State, (∀ code ∈ buf, code ≠ 10 ∧ code ≠ 9) →
      s.fb_cursor_index + buf.length * F.FONT_BYTES_PER_CODE ≤ 1024 →
      (fb_out_loop F buf s).fb_cursor_index
        = s.fb_cursor_index + buf.length * F.FONT_BYTES_PER_CODE ∧
      (∀ k code, buf[k]? = some code → ∀ j, j < F.FONT_BYTES_PER_CODE →
        (fb_out_loop F buf s).frame_buffer (s.fb_cursor_index + k * F.FONT_BYTES_PER_CODE + j)
          = F.font (font_index F code + j)) ∧
      (∀ i, i < s.fb_cursor_index ∨
          s.fb_cursor_index + buf.length * F.FONT_BYTES_PER_CODE ≤ i →
        (fb_out_loop F buf s).frame_buffer i = s.frame_buffer i) := by
  induction buf with
  | nil =>
    intro s _ _
    refine ⟨by simp [fb_out_loop], ?_, ?_⟩
    · intro k code hk; simp at hk
    · intro i _; rfl
  | cons c rest ih =>
    intro s hctl hfit
    have hlen : (c :: rest).length * F.FONT_BYTES_PER_CODE
        = F.FONT_BYTES_PER_CODE + rest.length * F.FONT_BYTES_PER_CODE := by
      rw [List.length_cons, Nat.succ_mul, Nat.add_comm]
    rw [hlen] at hfit ⊢
    have hc := hctl c (List.mem_cons_self c rest)
    have hstep := fb_out_char_glyph F c s (by omega) hc.1 hc.2 (by omega)
    have hcur : (fb_out_char F c s).fb_cursor_index
        = s.fb_cursor_index + F.FONT_BYTES_PER_CODE := by rw [hstep]
    have hbuf : ∀ i, (fb_out_char F c s).frame_buffer i
        = if s.fb_cursor_index ≤ i ∧ i < s.fb_cursor_index + F.FONT_BYTES_PER_CODE
          then F.font (font_index F c + (i - s.fb_cursor_index)) else s.frame_buffer i := by
      intro i; rw [hstep]; rfl
    obtain ⟨ih1, ih2, ih3⟩ := ih (fb_out_char F c s)
      (fun code hm => hctl code (List.mem_cons_of_mem c hm)) (by rw [hcur]; omega)
    rw [hcur] at ih1 ih2 ih3
    simp only [fb_out_loop]
    refine ⟨by rw [ih1]; omega, ?_, ?_⟩
    · intro k code hk j hj
      cases k with
      | zero =>
        simp only [List.getElem?_cons_zero, Option.some.injEq] at hk
        subst hk
        rw [Nat.zero_mul, Nat.add_zero, ih3 _ (Or.inl (by omega)), hbuf,
          if_pos ⟨by omega, by omega⟩]
        congr 2
        omega
      | succ k =>
        simp only [List.getElem?_cons_succ] at hk
        have h := ih2 k code hk j hj
        have he : s.fb_cursor_index + (k + 1) * F.FONT_BYTES_PER_CODE + j
            = s.fb_cursor_index + F.FONT_BYTES_PER_CODE + k * F.FONT_BYTES_PER_CODE + j := by
          rw [Nat.succ_mul]; omega
        rw [he]
        exact h
    · intro i hi
      rw [ih3 i (by omega), hbuf, if_neg (by omega)]

/-- C4: a string without newline or tab, written at a cursor `c` with
`c + n * g ≤ 1024` for its length `n` and the glyph size `g > 0`, puts the
`g` font bytes selected for its `k`-th character at `c + k * g`, leaves every
byte outside `[c, c + n * g)` as it was and ends with the cursor at
`c + n * g`. -/
theorem fb_out_chars_plain (F : Font) (buf : List Nat) (s : State)
    (hg : 0 < F.FONT_BYTES_PER_CODE)
    (hctl : ∀ code ∈ buf, code ≠ 10 ∧ code ≠ 9)
    (hfit : s.fb_cursor_index + buf.length * F.FONT_BYTES_PER_CODE ≤ 1024) :
    (∀ k code, buf[k]? = some code → ∀ j, j < F.FONT_BYTES_PER_CODE →
      (fb_out_chars F buf s).frame_buffer (s.fb_cursor_index + k * F.FONT_BYTES_PER_CODE + j)
        = F.font (font_index F code + j)) ∧
    (∀ i, i < s.fb_cursor_index ∨
        s.fb_cursor_index + buf.length * F.FONT_BYTES_PER_CODE ≤ i →
      (fb_out_chars F buf s).frame_buffer i = s.frame_buffer i) ∧
    (fb_out_chars F buf s).fb_cursor_index
      = s.fb_cursor_index + buf.length * F.FONT_BYTES_PER_CODE := by
  obtain ⟨h1, h2, h3⟩ := fb_out_loop_plain F hg buf s hctl hfit
  exact ⟨h2, h3, h1⟩

/-- Witness of C4: the string `Hi` written with the sample font at the third
cell of the first text row. -/
theorem fb_out_chars_plain_witness :
    (∀ k code, [72, 105][k]? = some code → ∀ j, j < sampleFont.FONT_BYTES_PER_CODE →
      (fb_out_chars sampleFont [72, 105] (litState 16)).frame_buffer
          ((litState 16).fb_cursor_index + k * sampleFont.FONT_BYTES_PER_CODE + j)
        = sampleFont.font (font_index sampleFont code + j)) ∧
    (∀ i, i < (litState 16).fb_cursor_index ∨
        (litState 16).fb_cursor_index + [72, 105].length * sampleFont.FONT_BYTES_PER_CODE ≤ i →
      (fb_out_chars sampleFont [72, 105] (litState 16)).frame_buffer i
        = (litState 16).frame_buffer i) ∧
    (fb_out_chars sampleFont [72, 105] (litState 16)).fb_cursor_index
      = (litState 16).fb_cursor_index + [72, 105].length * sampleFont.FONT_BYTES_PER_CODE :=
  fb_out_chars_plain sampleFont [72, 105] (litState 16) (by decide) (by decide) (by decide)

/-! ## Cursor placement, clearing and refresh -/

/-- C7: `set_cursor_pos(row, col)` sets the cursor to `row * 128 + col * g` when
`row < 8` and `col < 128 / g`, and then `cursor + g ≤ 1024`; for every other
`(row, col)` it returns the state unchanged; the frame buffer is the same in
both cases. -/
theorem set_cursor_pos_effect (F : Font) (row col : Nat) (s : State) :
    (row < 8 ∧ col < 128 / F.FONT_BYTES_PER_CODE →
      (set_cursor_pos F row col s).fb_cursor_index = row * 128 + col * F.FONT_BYTES_PER_CODE ∧
      (set_cursor_pos F row col s).fb_cursor_index + F.FONT_BYTES_PER_CODE ≤ 1024) ∧
    (¬ (row < 8 ∧ col < 128 / F.FONT_BYTES_PER_CODE) →
      (set_cursor_pos F row col s).fb_cursor_index = s.fb_cursor_index ∧
      set_cursor_pos F row col s = s) ∧
    (set_cursor_pos F row col s).frame_buffer = s.frame_buffer := by
  have hrows : NUM_Y_PIXELS / PIXELS_PER_BYTE = 8 := by decide
  refine ⟨?_, ?_, ?_⟩
  · intro hacc
    have hcell : (col + 1) * F.FONT_BYTES_PER_CODE ≤ 128 :=
      calc (col + 1) * F.FONT_BYTES_PER_CODE
          ≤ (128 / F.FONT_BYTES_PER_CODE) * F.FONT_BYTES_PER_CODE :=
            Nat.mul_le_mul_right _ hacc.2
        _ ≤ 128 := Nat.div_mul_le_self 128 _
    rw [Nat.succ_mul] at hcell
    have hlt : row * 128 + col * F.FONT_BYTES_PER_CODE < 2 ^ 32 := by omega
    simp only [set_cursor_pos, hrows, num_x_pixels_eq, hacc, and_self, if_true, u32_of_lt _ hlt,
      true_and]
    omega
  · intro hrej
    simp only [set_cursor_pos, hrows, num_x_pixels_eq, hrej, if_false, and_self]
  · simp only [set_cursor_pos]
    split <;> rfl

/-- Witness of C7: the call `set_cursor_pos(0, 2)` of the demonstration program
is accepted, the call `set_cursor_pos(8, 0)` is not. -/
theorem set_cursor_pos_effect_witness :
    ((set_cursor_pos sampleFont 0 2 (litState 40)).fb_cursor_index = 16 ∧
      (set_cursor_pos sampleFont 0 2 (litState 40)).fb_cursor_index + 8 ≤ 1024) ∧
    (set_cursor_pos sampleFont 8 0 (litState 40)).fb_cursor_index = 40 :=
  ⟨(set_cursor_pos_effect sampleFont 0 2 (litState 40)).1 (by decide),
    ((set_cursor_pos_effect sampleFont 8 0 (litState 40)).2.1 (by decide)).1⟩

/-- C8: after `clear_screen()` each of the 1024 bytes of the frame buffer is 0,
the cursor is 0 and the refresh flag is set, whatever the state was. -/
theorem clear_screen_effect (s : State) :
    (∀ i, i < 1024 → (clear_screen s).frame_buffer i = 0) ∧
    (clear_screen s).fb_cursor_index = 0 ∧
    (clear_screen s).display_needs_refresh = true := by
  refine ⟨?_, rfl, rfl⟩
  intro i hi
  have h : 0 ≤ i ∧ i < 0 + 1024 := by omega
  simp only [clear_screen, memset, frame_buffer_size_eq, h, and_self, if_true]

/-- Witness of C8: the last byte of a fully lit display is cleared. -/
theorem clear_screen_effect_witness :
    (clear_screen (litState 77)).frame_buffer 1023 = 0 :=
  (clear_screen_effect (litState 77)).1 1023 (by decide)

/-- C9: with the refresh flag set, `frame_refresh_callback` starts one DMA
transfer of the 1024 bytes at `frame_buffer` and clears the flag; with the flag
clear it starts none and leaves the state as it is; in both cases buffer and
cursor are unchanged and the return value is `true`. -/
theorem frame_refresh_callback_effect (s : State) :
    (s.display_needs_refresh = true →
      (frame_refresh_callback s).2.1 = [{ read_addr := 0, transfer_count := 1024 }] ∧
      (frame_refresh_callback s).1.display_needs_refresh = false) ∧
    (s.display_needs_refresh = false →
      (frame_refresh_callback s).2.1 = [] ∧
      (frame_refresh_callback s).1.display_needs_refresh = false ∧
      (frame_refresh_callback s).1 = s) ∧
    (frame_refresh_callback s).1.frame_buffer = s.frame_buffer ∧
    (frame_refresh_callback s).1.fb_cursor_index = s.fb_cursor_index ∧
    (frame_refresh_callback s).2.2 = true := by
  cases hd : s.display_needs_refresh with
  | true =>
    simp only [frame_refresh_callback, hd, if_true, frame_buffer_size_eq]
    simp
  | false =>
    simp only [frame_refresh_callback, hd]
    simp [hd]

/-- Witness of C9: a tick after `clear_screen` starts one transfer, the next
tick starts none. -/
theorem frame_refresh_callback_effect_witness :
    ((frame_refresh_callback (clear_screen (litState 0))).2.1
        = [{ read_addr := 0, transfer_count := 1024 }] ∧
      (frame_refresh_callback (clear_screen (litState 0))).1.display_needs_refresh = false) ∧
    ((frame_refresh_callback (litState 0)).2.1 = [] ∧
      (frame_refresh_callback (litState 0)).1.display_needs_refresh = false ∧
      (frame_refresh_callback (litState 0)).1 = litState 0) :=
  ⟨(frame_refresh_callback_effect (clear_screen (litState 0))).1 rfl,
    (frame_refresh_callback_effect (litState 0)).2.1 rfl⟩

/-! ## Termination of the line loop -/

/-- The loop of `draw_line` breaks before its iteration bound is used up. Here
`p` and `q` are the distances still to go in `x` and `y`, `a` and `b` are the
values of `dx` and `-dy`, and the error term is `a - b + p * b - q * a`. -/
theorem draw_line_loop_some (fuel : Nat) :
    ∀ (x y x1 y1 a sx b sy err p q : Int) (s : State),
      (sx = 1 ∨ sx = -1) → (sy = 1 ∨ sy = -1) →
      0 ≤ p → p ≤ a → 0 ≤ q → q ≤ b →
      x1 = x + sx * p → y1 = y + sy * q →
      err = a - b + p * b - q * a →
      p + q < fuel →
      ∃ s', draw_line_loop fuel x y x1 y1 a sx (-b) sy err s = some s' := by
  induction fuel with
  | zero =>
    intro x y x1 y1 a sx b sy err p q s _ _ hp0 _ hq0 _ _ _ _ hfuel
    simp only [Nat.cast_zero] at hfuel
    omega
  | succ n ih =>
    intro x y x1 y1 a sx b sy err p q s hsx hsy hp0 hpa hq0 hqb hx hy herr hfuel
    by_cases hend : x = x1 ∧ y = y1
    · refine ⟨set_pixel (int_to_uint x) (int_to_uint y) s, ?_⟩
      simp only [draw_line_loop]
      rw [if_pos hend]
    · have hpq : 0 < p + q := by
        by_contra hneg
        have hp : p = 0 := by omega
        have hq : q = 0 := by omega
        subst hp hq
        simp only [mul_zero, add_zero] at hx hy
        exact hend ⟨hx.symm, hy.symm⟩
      have hfuel' : p + q < (n : Int) + 1 := by simpa using hfuel
      have hXp : 2 * err ≥ -b → 1 ≤ p := by
        intro hX
        by_contra hneg
        have hp : p = 0 := by omega
        subst hp
        have hq1 : 1 ≤ q := by omega
        have hqa : a ≤ q * a := by nlinarith
        simp only [zero_mul, add_zero] at herr
        omega
      have hYq : 2 * err ≤ a → 1 ≤ q := by
        intro hY
        by_contra hneg
        have hq : q = 0 := by omega
        subst hq
        have hp1 : 1 ≤ p := by omega
        have hpb : b ≤ p * b := by nlinarith
        simp only [zero_mul, sub_zero] at herr
        omega
      by_cases hX : 2 * err ≥ -b
      · have hp1 := hXp hX
        by_cases hY : 2 * err ≤ a
        · have hq1 := hYq hY
          simp only [draw_line_loop, hend, if_false, hX, hY, if_true]
          exact ih _ _ _ _ _ _ _ _ _ (p - 1) (q - 1) _ hsx hsy (by omega) (by omega)
            (by omega) (by omega) (by rw [hx]; ring) (by rw [hy]; ring)
            (by rw [herr]; ring) (by omega)
        · simp only [draw_line_loop, hend, if_false, hX, hY, if_true]
          exact ih _ _ _ _ _ _ _ _ _ (p - 1) q _ hsx hsy (by omega) (by omega)
            hq0 hqb (by rw [hx]; ring) hy (by rw [herr]; ring) (by omega)
      · have hY : 2 * err ≤ a := by omega
        have hq1 := hYq hY
        simp only [draw_line_loop, hend, if_false, hX, hY, if_true]
        exact ih _ _ _ _ _ _ _ _ _ p (q - 1) _ hsx hsy hp0 hpa
          (by omega) (by omega) hx (by rw [hy]; ring) (by rw [herr]; ring) (by omega)

/-- For all endpoints `draw_line` returns, with the refresh flag set. -/
theorem draw_line_some (x0 y0 x1 y1 : Int) (s : State) :
    ∃ s', draw_line x0 y0 x1 y1 s = some s' ∧ s'.display_needs_refresh = true := by
  have hsx : ((if x0 < x1 then 1 else -1 : Int) = 1 ∨ (if x0 < x1 then 1 else -1 : Int) = -1) := by
    split <;> simp
  have hsy : ((if y0 < y1 then 1 else -1 : Int) = 1 ∨ (if y0 < y1 then 1 else -1 : Int) = -1) := by
    split <;> simp
  have hx : x1 = x0 + (if x0 < x1 then 1 else -1 : Int) * |x1 - x0| := by
    split
    · rw [abs_of_nonneg (by omega)]; ring
    · rw [abs_of_nonpos (by omega)]; ring
  have hy : y1 = y0 + (if y0 < y1 then 1 else -1 : Int) * |y1 - y0| := by
    split
    · rw [abs_of_nonneg (by omega)]; ring
    · rw [abs_of_nonpos (by omega)]; ring
  obtain ⟨s1, hs1⟩ := draw_line_loop_some ((x1 - x0).natAbs + (y1 - y0).natAbs + 1)
    x0 y0 x1 y1 |x1 - x0| (if x0 < x1 then 1 else -1) |y1 - y0| (if y0 < y1 then 1 else -1)
    (|x1 - x0| + -|y1 - y0|) |x1 - x0| |y1 - y0| s hsx hsy (abs_nonneg _) (le_refl _)
    (abs_nonneg _) (le_refl _) hx hy (by ring)
    (by push_cast; linarith)
  refine ⟨{ s1 with display_needs_refresh := true }, ?_, rfl⟩
  simp only [draw_line, hs1]

/-! ## The refresh flag -/

theorem set_cursor_pos_flag (F : Font) (row col : Nat) (s : State) :
    (set_cursor_pos F row col s).display_needs_refresh = s.display_needs_refresh := by
  simp only [set_cursor_pos]
  split <;> rfl

theorem set_pixel_flag_of_set (x y : Nat) (s : State) (h : s.display_needs_refresh = true) :
    (set_pixel x y s).display_needs_refresh = true := by
  simp only [set_pixel]
  split
  · rfl
  · exact h

theorem clear_pixel_flag_of_set (x y : Nat) (s : State) (h : s.display_needs_refresh = true) :
    (clear_pixel x y s).display_needs_refresh = true := by
  simp only [clear_pixel]
  split
  · rfl
  · exact h

/-! ## The line loop and its points -/

theorem draw_line_loop_eq_plot (fuel : Nat) :
    ∀ (x y x1 y1 dx sx dy sy err : Int) (s : State),
      draw_line_loop fuel x y x1 y1 dx sx dy sy err s
        = (draw_line_points fuel x y x1 y1 dx sx dy sy err).map (fun pts => plot_points pts s) := by
  induction fuel with
  | zero => intros; rfl
  | succ n ih =>
    intro x y x1 y1 dx sx dy sy err s
    simp only [draw_line_loop, draw_line_points]
    by_cases hend : x = x1 ∧ y = y1
    · rw [if_pos hend, if_pos hend]; rfl
    · rw [if_neg hend, if_neg hend, ih]
      cases draw_line_points n (if 2 * err ≥ dy then x + sx else x)
        (if 2 * err ≤ dx then y + sy else y) x1 y1 dx sx dy sy
        (if 2 * err ≤ dx then (if 2 * err ≥ dy then err + dy else err) + dx
          else if 2 * err ≥ dy then err + dy else err) <;> rfl

/-- The function `draw_line` plots the points of `draw_line_plotted` and sets
the refresh flag. -/
theorem draw_line_eq_plot (x0 y0 x1 y1 : Int) (s : State) :
    draw_line x0 y0 x1 y1 s
      = (draw_line_plotted x0 y0 x1 y1).map
          (fun pts => { plot_points pts s with display_needs_refresh := true }) := by
  simp only [draw_line, draw_line_plotted, draw_line_loop_eq_plot]
  cases draw_line_points ((x1 - x0).natAbs + (y1 - y0).natAbs + 1) x0 y0 x1 y1 |x1 - x0|
    (if x0 < x1 then 1 else -1) (-|y1 - y0|) (if y0 < y1 then 1 else -1)
    (|x1 - x0| + -|y1 - y0|) <;> rfl

theorem int_to_uint_of_nonneg (z : Int) (h0 : 0 ≤ z) (h1 : z < 2 ^ 32) :
    int_to_uint z = z.toNat := by
  unfold int_to_uint
  rw [Int.emod_eq_of_lt h0 h1]

theorem int_to_uint_of_neg (z : Int) (h0 : z < 0) (h1 : -(2 ^ 31) ≤ z) :
    2 ^ 31 ≤ int_to_uint z := by
  unfold int_to_uint
  omega

/-- One iteration of the loop of `draw_line` that does not break: with `p`, `q`
the distances still to go and `err = a - b + p * b - q * a`, the next values
satisfy the same relations for distances `p'`, `q'` with `p' + q' < p + q`;
on an `x`-major line (`b ≤ a`) every iteration moves in `x`, on a `y`-major
line (`a ≤ b`) every iteration moves in `y`. -/
theorem line_step (x y x1 y1 a sx b sy err p q : Int)
    (hp0 : 0 ≤ p) (hpa : p ≤ a) (hq0 : 0 ≤ q) (hqb : q ≤ b)
    (hx : x1 = x + sx * p) (hy : y1 = y + sy * q)
    (herr : err = a - b + p * b - q * a) (hend : ¬ (x = x1 ∧ y = y1)) :
    ∃ p' q' : Int,
      0 ≤ p' ∧ p' ≤ a ∧ 0 ≤ q' ∧ q' ≤ b ∧
      x1 = (if 2 * err ≥ -b then x + sx else x) + sx * p' ∧
      y1 = (if 2 * err ≤ a then y + sy else y) + sy * q' ∧
      (if 2 * err ≤ a then (if 2 * err ≥ -b then err + -b else err) + a
        else if 2 * err ≥ -b then err + -b else err) = a - b + p' * b - q' * a ∧
      p' + q' < p + q ∧
      (if 2 * err ≥ -b then p' = p - 1 else p' = p) ∧
      (if 2 * err ≤ a then q' = q - 1 else q' = q) ∧
      (b ≤ a → b - 2 * a ≤ 2 * (p * b - q * a) →
        p' = p - 1 ∧ b - 2 * a ≤ 2 * (p' * b - q' * a)) ∧
      (a ≤ b → 2 * (p * b - q * a) ≤ 2 * b - a →
        q' = q - 1 ∧ 2 * (p' * b - q' * a) ≤ 2 * b - a) := by
  have hpq : 0 < p + q := by
    by_contra hneg
    have hp : p = 0 := by omega
    have hq : q = 0 := by omega
    subst hp hq
    simp only [mul_zero, add_zero] at hx hy
    exact hend ⟨hx.symm, hy.symm⟩
  have hXp : 2 * err ≥ -b → 1 ≤ p := by
    intro hX
    by_contra hneg
    have hp : p = 0 := by omega
    subst hp
    have hq1 : 1 ≤ q := by omega
    have hqa : a ≤ q * a := by nlinarith
    simp only [zero_mul, add_zero] at herr
    omega
  have hYq : 2 * err ≤ a → 1 ≤ q := by
    intro hY
    by_contra hneg
    have hq : q = 0 := by omega
    subst hq
    have hp1 : 1 ≤ p := by omega
    have hpb : b ≤ p * b := by nlinarith
    simp only [zero_mul, sub_zero] at herr
    omega
  have e1 : (p - 1) * b = p * b - b := by ring
  have e2 : (q - 1) * a = q * a - a := by ring
  by_cases hX : 2 * err ≥ -b
  · have hp1 := hXp hX
    by_cases hY : 2 * err ≤ a
    · have hq1 := hYq hY
      refine ⟨p - 1, q - 1, by omega, by omega, by omega, by omega, ?_, ?_, ?_, by omega,
        ?_, ?_, ?_, ?_⟩
      · rw [if_pos hX, hx]; ring
      · rw [if_pos hY, hy]; ring
      · rw [if_pos hY, if_pos hX, herr]; ring
      · rw [if_pos hX]
      · rw [if_pos hY]
      · intro hba hD
        refine ⟨rfl, ?_⟩
        rw [e1, e2]; omega
      · intro hab hD
        refine ⟨rfl, ?_⟩
        rw [e1, e2]; omega
    · refine ⟨p - 1, q, by omega, by omega, hq0, hqb, ?_, ?_, ?_, by omega, ?_, ?_, ?_, ?_⟩
      · rw [if_pos hX, hx]; ring
      · rw [if_neg hY]; exact hy
      · rw [if_neg hY, if_pos hX, herr]; ring
      · rw [if_pos hX]
      · rw [if_neg hY]
      · intro hba hD
        refine ⟨rfl, ?_⟩
        rw [e1]; omega
      · intro hab hD
        exfalso; omega
  · have hY : 2 * err ≤ a := by omega
    have hq1 := hYq hY
    refine ⟨p, q - 1, hp0, hpa, by omega, by omega, ?_, ?_, ?_, by omega, ?_, ?_, ?_, ?_⟩
    · rw [if_neg hX]; exact hx
    · rw [if_pos hY, hy]; ring
    · rw [if_pos hY, if_neg hX, herr]; ring
    · rw [if_neg hX]
    · rw [if_pos hY]
    · intro hba hD
      exfalso; omega
    · intro hab hD
      refine ⟨rfl, ?_⟩
      rw [e2]; omega

/-- The points of the loop of `draw_line`, started with distances `p`, `q` to go:
the loop breaks within `p + q + 1` iterations, the first point is the current
one, the last is the end point, consecutive points are neighbours, all points
lie between the current point and the end point, and their number is `p + 1`
on an `x`-major line and `q + 1` on a `y`-major line. -/
theorem draw_line_points_spec (fuel : Nat) :
    ∀ (x y x1 y1 a sx b sy err p q : Int),
      (sx = 1 ∨ sx = -1) → (sy = 1 ∨ sy = -1) →
      0 ≤ p → p ≤ a → 0 ≤ q → q ≤ b →
      x1 = x + sx * p → y1 = y + sy * q →
      err = a - b + p * b - q * a →
      p + q < fuel →
      ∃ pts, draw_line_points fuel x y x1 y1 a sx (-b) sy err = some pts ∧
        pts.head? = some (x, y) ∧
        pts.getLast? = some (x1, y1) ∧
        List.Chain' near pts ∧
        (∀ pt ∈ pts, min x x1 ≤ pt.1 ∧ pt.1 ≤ max x x1 ∧ min y y1 ≤ pt.2 ∧ pt.2 ≤ max y y1) ∧
        (b ≤ a → b - 2 * a ≤ 2 * (p * b - q * a) → (pts.length : Int) = p + 1) ∧
        (a ≤ b → 2 * (p * b - q * a) ≤ 2 * b - a → (pts.length : Int) = q + 1) := by
  induction fuel with
  | zero =>
    intro x y x1 y1 a sx b sy err p q _ _ hp0 _ hq0 _ _ _ _ hfuel
    simp only [Nat.cast_zero] at hfuel
    omega
  | succ n ih =>
    intro x y x1 y1 a sx b sy err p q hsx hsy hp0 hpa hq0 hqb hx hy herr hfuel
    have hfuel' : p + q < (n : Int) + 1 := by simpa using hfuel
    by_cases hend : x = x1 ∧ y = y1
    · have hp : p = 0 := by
        have h := hend.1
        rcases hsx with h1 | h1 <;> rw [h1] at hx <;> omega
      have hq : q = 0 := by
        have h := hend.2
        rcases hsy with h1 | h1 <;> rw [h1] at hy <;> omega
      refine ⟨[(x, y)], ?_, rfl, ?_, List.chain'_singleton _, ?_, ?_, ?_⟩
      · simp only [draw_line_points]
        rw [if_pos hend]
      · rw [hend.1, hend.2]; rfl
      · intro pt hpt
        rw [List.mem_singleton] at hpt
        subst hpt
        simp only
        omega
      · intro _ _; rw [hp]; rfl
      · intro _ _; rw [hq]; rfl
    · obtain ⟨p', q', hp0', hpa', hq0', hqb', hx', hy', herr', hlt, hpm, hqm, hxm, hym⟩ :=
        line_step x y x1 y1 a sx b sy err p q hp0 hpa hq0 hqb hx hy herr hend
      obtain ⟨pts, hpts, hhead, hlast, hchain, hbox, hlx, hly⟩ :=
        ih _ _ x1 y1 a sx b sy _ p' q' hsx hsy hp0' hpa' hq0' hqb' hx' hy' herr'
          (by omega)
      have hnx : (if 2 * err ≥ -b then x + sx else x) = x + sx * (p - p') := by
        split at hpm <;> rename_i hX
        · rw [if_pos hX, hpm]; ring
        · rw [if_neg hX, hpm]; ring
      have hny : (if 2 * err ≤ a then y + sy else y) = y + sy * (q - q') := by
        split at hqm <;> rename_i hY
        · rw [if_pos hY, hqm]; ring
        · rw [if_neg hY, hqm]; ring
      have hpd : 0 ≤ p - p' ∧ p - p' ≤ 1 := by
        split at hpm <;> omega
      have hqd : 0 ≤ q - q' ∧ q - q' ≤ 1 := by
        split at hqm <;> omega
      rw [hnx, hny] at hhead hbox
      refine ⟨(x, y) :: pts, ?_, rfl, ?_, ?_, ?_, ?_, ?_⟩
      · simp only [draw_line_points]
        rw [if_neg hend, hpts]
      · rw [List.getLast?_cons, hlast]; rfl
      · rw [List.chain'_cons']
        refine ⟨?_, hchain⟩
        intro v hv
        rw [hhead, Option.mem_def, Option.some.injEq] at hv
        subst hv
        simp only [near, abs_le]
        rcases hsx with h1 | h1 <;> rcases hsy with h2 | h2 <;> rw [h1, h2] <;> omega
      · intro pt hpt
        rw [List.mem_cons] at hpt
        rcases hpt with hpt | hpt
        · subst hpt
          simp only
          omega
        · have hb := hbox pt hpt
          rcases hsx with h1 | h1 <;> rcases hsy with h2 | h2 <;>
            rw [h1] at hx hb <;> rw [h2] at hy hb <;> omega
      · intro hba hD
        obtain ⟨hp1, hD'⟩ := hxm hba hD
        have hl := hlx hba hD'
        rw [List.length_cons]
        push_cast
        omega
      · intro hab hD
        obtain ⟨hq1, hD'⟩ := hym hab hD
        have hl := hly hab hD'
        rw [List.length_cons]
        push_cast
        omega

/-- The points plotted by `draw_line`: the loop breaks, the first point is
`(x0, y0)`, the last is `(x1, y1)`, consecutive points are neighbours, all
points lie in the bounding rectangle of the end points and there are
`max |x1 - x0| |y1 - y0| + 1` of them. -/
theorem draw_line_plotted_spec (x0 y0 x1 y1 : Int) :
    ∃ pts, draw_line_plotted x0 y0 x1 y1 = some pts ∧
      pts.head? = some (x0, y0) ∧
      pts.getLast? = some (x1, y1) ∧
      List.Chain' near pts ∧
      (∀ pt ∈ pts, min x0 x1 ≤ pt.1 ∧ pt.1 ≤ max x0 x1 ∧ min y0 y1 ≤ pt.2 ∧ pt.2 ≤ max y0 y1) ∧
      (pts.length : Int) = max |x1 - x0| |y1 - y0| + 1 := by
  have hsx : ((if x0 < x1 then 1 else -1 : Int) = 1 ∨ (if x0 < x1 then 1 else -1 : Int) = -1) := by
    split <;> simp
  have hsy : ((if y0 < y1 then 1 else -1 : Int) = 1 ∨ (if y0 < y1 then 1 else -1 : Int) = -1) := by
    split <;> simp
  have hx : x1 = x0 + (if x0 < x1 then 1 else -1 : Int) * |x1 - x0| := by
    split
    · rw [abs_of_nonneg (by omega)]; ring
    · rw [abs_of_nonpos (by omega)]; ring
  have hy : y1 = y0 + (if y0 < y1 then 1 else -1 : Int) * |y1 - y0| := by
    split
    · rw [abs_of_nonneg (by omega)]; ring
    · rw [abs_of_nonpos (by omega)]; ring
  have ha : (0 : Int) ≤ |x1 - x0| := abs_nonneg _
  have hb : (0 : Int) ≤ |y1 - y0| := abs_nonneg _
  obtain ⟨pts, hpts, hhead, hlast, hchain, hbox, hlx, hly⟩ :=
    draw_line_points_spec ((x1 - x0).natAbs + (y1 - y0).natAbs + 1)
      x0 y0 x1 y1 |x1 - x0| (if x0 < x1 then 1 else -1) |y1 - y0| (if y0 < y1 then 1 else -1)
      (|x1 - x0| + -|y1 - y0|) |x1 - x0| |y1 - y0| hsx hsy ha (le_refl _) hb (le_refl _)
      hx hy (by ring) (by push_cast; linarith)
  refine ⟨pts, hpts, hhead, hlast, hchain, hbox, ?_⟩
  have hD : |x1 - x0| * |y1 - y0| - |y1 - y0| * |x1 - x0| = 0 := by ring
  rcases le_total |y1 - y0| |x1 - x0| with h | h
  · rw [max_eq_left h]
    exact hlx h (by rw [hD]; linarith)
  · rw [max_eq_right h]
    exact hly h (by rw [hD]; linarith)

/-! ## Pixels bit by bit -/

theorem testBit_or_one_shiftLeft_eq (b k j : Nat) :
    Nat.testBit (b ||| (1 <<< k)) j = (Nat.testBit b j || decide (j = k)) := by
  rw [Nat.testBit_or, Nat.one_shiftLeft, Nat.testBit_two_pow]
  congr 1
  by_cases h : j = k
  · simp [h]
  · have h' : ¬ k = j := fun e => h e.symm
    simp [h, h']

theorem testBit_and_not_one_shiftLeft_of_ne (b k j : Nat) (hj : j < 8) (hne : j ≠ k) :
    Nat.testBit (b &&& (0xFF ^^^ (1 <<< k))) j = Nat.testBit b j := by
  have h255 : Nat.testBit 255 j = true := by interval_cases j <;> decide
  have h' : ¬ k = j := fun e => hne e.symm
  simp [Nat.testBit_and, Nat.testBit_xor, Nat.one_shiftLeft, Nat.testBit_two_pow, h255, h']

/-- The bits of the frame buffer after `set_pixel` with in-range coordinates:
bit `y % 8` of byte `x + (y / 8) * 128` is set, every other bit is as before. -/
theorem set_pixel_testBit (x y : Nat) (s : State) (hx : x < 128) (hy : y < 64) (i k : Nat) :
    Nat.testBit ((set_pixel x y s).frame_buffer i) k
      = (Nat.testBit (s.frame_buffer i) k || decide (i = x + (y / 8) * 128 ∧ k = y % 8)) := by
  simp only [set_pixel, num_x_pixels_eq, num_y_pixels_eq, hx, hy, and_self, if_true]
  by_cases hi : i = x + (y / 8) * 128
  · rw [if_pos hi, testBit_or_one_shiftLeft_eq]
    simp [hi]
  · rw [if_neg hi]
    simp [hi]

/-- C11: `draw_line(x, y, x, y)` plots the one point `(x, y)`: it returns with
the frame buffer of a single `set_pixel(x, y)` and the cursor unchanged, and
for in-range `(x, y)` bit `y % 8` of byte `x + (y / 8) * 128` is set and every
other bit of the buffer is as before. -/
theorem draw_line_single_point (x y : Int) (s : State) :
    draw_line_plotted x y x y = some [(x, y)] ∧
    ∃ s', draw_line x y x y s = some s' ∧
      s'.frame_buffer = (set_pixel (int_to_uint x) (int_to_uint y) s).frame_buffer ∧
      s'.fb_cursor_index = s.fb_cursor_index ∧
      (0 ≤ x → x < 128 → 0 ≤ y → y < 64 →
        ∀ i k, Nat.testBit (s'.frame_buffer i) k
          = (Nat.testBit (s.frame_buffer i) k ||
              decide (i = x.toNat + (y.toNat / 8) * 128 ∧ k = y.toNat % 8))) := by
  have hp : draw_line_plotted x y x y = some [(x, y)] := by
    simp [draw_line_plotted, draw_line_points]
  refine ⟨hp, { set_pixel (int_to_uint x) (int_to_uint y) s with display_needs_refresh := true },
    ?_, rfl, ?_, ?_⟩
  · rw [draw_line_eq_plot, hp]; rfl
  · simp only [set_pixel]
    split <;> rfl
  · intro hx0 hx1 hy0 hy1 i k
    have hx : int_to_uint x = x.toNat := int_to_uint_of_nonneg x hx0 (by omega)
    have hy : int_to_uint y = y.toNat := int_to_uint_of_nonneg y hy0 (by omega)
    rw [hx, hy]
    exact set_pixel_testBit x.toNat y.toNat s (by omega) (by omega) i k

/-- Witness of C11 at the pixel `(5, 9)` of a cleared screen. -/
theorem draw_line_single_point_witness :
    ∃ s', draw_line 5 9 5 9 (clear_screen (litState 0)) = some s' ∧
      ∀ i k, Nat.testBit (s'.frame_buffer i) k
        = (Nat.testBit ((clear_screen (litState 0)).frame_buffer i) k ||
            decide (i = (5 : Int).toNat + ((9 : Int).toNat / 8) * 128 ∧ k = (9 : Int).toNat % 8)) := by
  obtain ⟨s', h1, _, _, h4⟩ := (draw_line_single_point 5 9 (clear_screen (litState 0))).2
  exact ⟨s', h1, h4 (by decide) (by decide) (by decide) (by decide)⟩

/-! ## Lines in general -/

/-- C16: for all end points the loop of `draw_line` breaks: it plots
`max |x1 - x0| |y1 - y0| + 1` points, the first is `(x0, y0)`, the last is
`(x1, y1)`, and each point differs from the one before by at most 1 in `x`
and by at most 1 in `y`. -/
theorem draw_line_point_count (x0 y0 x1 y1 : Int) (s : State) :
    ∃ pts, draw_line_plotted x0 y0 x1 y1 = some pts ∧
      draw_line x0 y0 x1 y1 s = some { plot_points pts s with display_needs_refresh := true } ∧
      (pts.length : Int) = max |x1 - x0| |y1 - y0| + 1 ∧
      pts.head? = some (x0, y0) ∧
      pts.getLast? = some (x1, y1) ∧
      List.Chain' near pts := by
  obtain ⟨pts, hpts, hhead, hlast, hchain, -, hlen⟩ := draw_line_plotted_spec x0 y0 x1 y1
  refine ⟨pts, hpts, ?_, hlen, hhead, hlast, hchain⟩
  rw [draw_line_eq_plot, hpts]; rfl

/-! ## One pixel, one bit -/

/-- C18: for in-range `(x, y)` and a different in-range `(x', y')`, the bit of
pixel `(x', y')` (bit `y' % 8` of byte `x' + (y' / 8) * 128`) is the same
before and after `set_pixel(x, y)` and `clear_pixel(x, y)`, both leave the
cursor where it was, and two in-range pixels with the same byte and the same
bit are the same pixel. -/
theorem pixel_touches_one_bit (x y x' y' : Nat) (s : State)
    (hx : x < 128) (hy : y < 64) (hx' : x' < 128) (_hy' : y' < 64)
    (hne : x ≠ x' ∨ y ≠ y') :
    Nat.testBit ((set_pixel x y s).frame_buffer (x' + (y' / 8) * 128)) (y' % 8)
      = Nat.testBit (s.frame_buffer (x' + (y' / 8) * 128)) (y' % 8) ∧
    Nat.testBit ((clear_pixel x y s).frame_buffer (x' + (y' / 8) * 128)) (y' % 8)
      = Nat.testBit (s.frame_buffer (x' + (y' / 8) * 128)) (y' % 8) ∧
    (set_pixel x y s).fb_cursor_index = s.fb_cursor_index ∧
    (clear_pixel x y s).fb_cursor_index = s.fb_cursor_index ∧
    ¬ (x + (y / 8) * 128 = x' + (y' / 8) * 128 ∧ y % 8 = y' % 8) := by
  have hinj : ¬ (x + (y / 8) * 128 = x' + (y' / 8) * 128 ∧ y % 8 = y' % 8) := by omega
  refine ⟨?_, ?_, ?_, ?_, hinj⟩
  · rw [set_pixel_testBit x y s hx hy]
    have hf : decide (x' + (y' / 8) * 128 = x + (y / 8) * 128 ∧ y' % 8 = y % 8) = false := by
      rw [decide_eq_false_iff_not]; omega
    rw [hf, Bool.or_false]
  · simp only [clear_pixel, num_x_pixels_eq, num_y_pixels_eq, hx, hy, and_self, if_true]
    by_cases hi : x' + (y' / 8) * 128 = x + (y / 8) * 128
    · rw [if_pos hi]
      exact testBit_and_not_one_shiftLeft_of_ne _ _ _ (Nat.mod_lt _ (by decide)) (by omega)
    · rw [if_neg hi]
  · simp only [set_pixel]
    split <;> rfl
  · simp only [clear_pixel]
    split <;> rfl

/-- Witness of C18: two pixels that share byte 0 of a fully lit display. -/
theorem pixel_touches_one_bit_witness :
    Nat.testBit ((set_pixel 0 0 (litState 0)).frame_buffer (0 + (1 / 8) * 128)) (1 % 8)
      = Nat.testBit ((litState 0).frame_buffer (0 + (1 / 8) * 128)) (1 % 8) ∧
    Nat.testBit ((clear_pixel 0 0 (litState 0)).frame_buffer (0 + (1 / 8) * 128)) (1 % 8)
      = Nat.testBit ((litState 0).frame_buffer (0 + (1 / 8) * 128)) (1 % 8) ∧
    (set_pixel 0 0 (litState 0)).fb_cursor_index = (litState 0).fb_cursor_index ∧
    (clear_pixel 0 0 (litState 0)).fb_cursor_index = (litState 0).fb_cursor_index ∧
    ¬ (0 + (0 / 8) * 128 = 0 + (1 / 8) * 128 ∧ 0 % 8 = 1 % 8) :=
  pixel_touches_one_bit 0 0 0 1 (litState 0) (by decide) (by decide) (by decide) (by decide)
    (Or.inr (by decide))

/-! ## Composition of writes -/

theorem scroll_loop_flag (d : Bool) (fuel : Nat) :
    ∀ s : State, scroll_loop fuel { s with display_needs_refresh := d }
      = { scroll_loop fuel s with display_needs_refresh := d } := by
  induction fuel with
  | zero => intro s; rfl
  | succ n ih =>
    intro s
    simp only [scroll_loop]
    split
    · exact ih (scroll_step s)
    · rfl

theorem fb_out_char_flag (F : Font) (code : Nat) (d : Bool) (s : State) :
    fb_out_char F code { s with display_needs_refresh := d }
      = { fb_out_char F code s with display_needs_refresh := d } := by
  simp only [fb_out_char, scroll_loop_flag]
  split
  · rfl
  · split <;> rfl

theorem fb_out_loop_flag (F : Font) (d : Bool) (buf : List Nat) :
    ∀ s : State, fb_out_loop F buf { s with display_needs_refresh := d }
      = { fb_out_loop F buf s with display_needs_refresh := d } := by
  induction buf with
  | nil => intro s; rfl
  | cons c rest ih =>
    intro s
    simp only [fb_out_loop]
    rw [fb_out_char_flag, ih]

theorem fb_out_loop_append (F : Font) (a b : List Nat) :
    ∀ s : State, fb_out_loop F (a ++ b) s = fb_out_loop F b (fb_out_loop F a s) := by
  induction a with
  | nil => intro s; rfl
  | cons c rest ih =>
    intro s
    simp only [List.cons_append, fb_out_loop]
    exact ih _

/-- C20: writing `a` and then `b` in a second call of `fb_out_chars` gives the
state (buffer, cursor and refresh flag) of writing `a ++ b` in one call. -/
theorem fb_out_chars_append (F : Font) (a b : List Nat) (s : State) :
    fb_out_chars F b (fb_out_chars F a s) = fb_out_chars F (a ++ b) s := by
  simp only [fb_out_chars]
  rw [fb_out_loop_flag, fb_out_loop_append]

/-! ## Glyph selection -/

theorem fb_out_char_post (F : Font) (code : Nat) (s : State) :
    fb_out_char F code s = fb_out_char F code (scroll_loop s.fb_cursor_index s) := by
  simp only [fb_out_char, scroll_loop_of_lt _ _ (scroll_loop_cursor_lt s)]

/-- C13: for a code that is neither newline nor tab, written after the scroll
loop has left the state `post`: a code outside `[FONT_CODE_FIRST,
FONT_CODE_LAST]` puts the `g` font bytes at `FONT_INDEX_UNDEF` to the cursor,
a code inside puts the `g` font bytes at
`g * (FONT_INDEX_START + code - FONT_CODE_FIRST)` there; in both cases the
other bytes stay and the cursor advances by `g`; two codes outside the range
give the same state. Here `g = FONT_BYTES_PER_CODE`, small enough for the
`uint` cursor not to wrap. -/
theorem glyph_for_code (F : Font) (code : Nat) (s : State)
    (hn : code ≠ 10) (ht : code ≠ 9) (hsize : F.FONT_BYTES_PER_CODE + 1024 ≤ 2 ^ 32) :
    (code < F.FONT_CODE_FIRST ∨ F.FONT_CODE_LAST < code →
      ∀ j, j < F.FONT_BYTES_PER_CODE →
        (fb_out_chars F [code] s).frame_buffer
            ((scroll_loop s.fb_cursor_index s).fb_cursor_index + j)
          = F.font (F.FONT_INDEX_UNDEF + j)) ∧
    (F.FONT_CODE_FIRST ≤ code ∧ code ≤ F.FONT_CODE_LAST →
      ∀ j, j < F.FONT_BYTES_PER_CODE →
        (fb_out_chars F [code] s).frame_buffer
            ((scroll_loop s.fb_cursor_index s).fb_cursor_index + j)
          = F.font (F.FONT_BYTES_PER_CODE * (F.FONT_INDEX_START + code - F.FONT_CODE_FIRST)
              + j)) ∧
    (∀ i, i < (scroll_loop s.fb_cursor_index s).fb_cursor_index ∨
        (scroll_loop s.fb_cursor_index s).fb_cursor_index + F.FONT_BYTES_PER_CODE ≤ i →
      (fb_out_chars F [code] s).frame_buffer i
        = (scroll_loop s.fb_cursor_index s).frame_buffer i) ∧
    (fb_out_chars F [code] s).fb_cursor_index
      = (scroll_loop s.fb_cursor_index s).fb_cursor_index + F.FONT_BYTES_PER_CODE ∧
    (∀ code', code' ≠ 10 → code' ≠ 9 →
      code < F.FONT_CODE_FIRST ∨ F.FONT_CODE_LAST < code →
      code' < F.FONT_CODE_FIRST ∨ F.FONT_CODE_LAST < code' →
      fb_out_chars F [code'] s = fb_out_chars F [code] s) := by
  have hlt := scroll_loop_cursor_lt s
  have hstep : ∀ c, c ≠ 10 → c ≠ 9 → fb_out_chars F [c] s =
      { scroll_loop s.fb_cursor_index s with
        frame_buffer :=
          memcpy (scroll_loop s.fb_cursor_index s).frame_buffer
            (scroll_loop s.fb_cursor_index s).fb_cursor_index F.font (font_index F c)
            F.FONT_BYTES_PER_CODE
        fb_cursor_index :=
          (scroll_loop s.fb_cursor_index s).fb_cursor_index + F.FONT_BYTES_PER_CODE
        display_needs_refresh := true } := by
    intro c hc1 hc2
    simp only [fb_out_chars, fb_out_loop]
    rw [fb_out_char_post, fb_out_char_glyph F c _ hlt hc1 hc2 (by omega)]
  have hbuf : ∀ i, (fb_out_chars F [code] s).frame_buffer i
      = if (scroll_loop s.fb_cursor_index s).fb_cursor_index ≤ i ∧
            i < (scroll_loop s.fb_cursor_index s).fb_cursor_index + F.FONT_BYTES_PER_CODE
        then F.font (font_index F code + (i - (scroll_loop s.fb_cursor_index s).fb_cursor_index))
        else (scroll_loop s.fb_cursor_index s).frame_buffer i := by
    intro i; rw [hstep code hn ht]; rfl
  refine ⟨?_, ?_, ?_, ?_, ?_⟩
  · intro hout j hj
    have hfi : font_index F code = F.FONT_INDEX_UNDEF := by
      simp only [font_index, gt_iff_lt, hout, if_true]
    rw [hbuf, if_pos ⟨by omega, by omega⟩, hfi]
    congr 2
    omega
  · intro hin j hj
    have hnot : ¬ (code < F.FONT_CODE_FIRST ∨ code > F.FONT_CODE_LAST) := by omega
    have hfi : font_index F code
        = F.FONT_BYTES_PER_CODE * (F.FONT_INDEX_START + code - F.FONT_CODE_FIRST) := by
      simp only [font_index, hnot, if_false]
    rw [hbuf, if_pos ⟨by omega, by omega⟩, hfi]
    congr 2
    omega
  · intro i hi
    rw [hbuf, if_neg (by omega)]
  · rw [hstep code hn ht]
  · intro code' hn' ht' hout hout'
    have hfi : font_index F code = F.FONT_INDEX_UNDEF := by
      simp only [font_index, gt_iff_lt, hout, if_true]
    have hfi' : font_index F code' = F.FONT_INDEX_UNDEF := by
      simp only [font_index, gt_iff_lt, hout', if_true]
    rw [hstep code hn ht, hstep code' hn' ht', hfi, hfi']

/-- Witness of C13: the codes 200 and 7, both outside the range of the sample
font, written at the third cell of the first text row. -/
theorem glyph_for_code_witness :
    (∀ j, j < sampleFont.FONT_BYTES_PER_CODE →
      (fb_out_chars sampleFont [200] (litState 16)).frame_buffer
          ((scroll_loop (litState 16).fb_cursor_index (litState 16)).fb_cursor_index + j)
        = sampleFont.font (sampleFont.FONT_INDEX_UNDEF + j)) ∧
    fb_out_chars sampleFont [7] (litState 16) = fb_out_chars sampleFont [200] (litState 16) :=
  ⟨(glyph_for_code sampleFont 200 (litState 16) (by decide) (by decide) (by decide)).1
      (Or.inr (by decide)),
    (glyph_for_code sampleFont 200 (litState 16) (by decide) (by decide) (by decide)).2.2.2.2
      7 (by decide) (by decide) (Or.inr (by decide)) (Or.inl (by decide))⟩

/-! ## The cursor invariant -/

theorem i32_of_range (z : Int) (h0 : -(2 ^ 31) ≤ z) (h1 : z < 2 ^ 31) : i32 z = z := by
  unfold i32
  omega

theorem draw_line_loop_i32_eq_plot (fuel : Nat) :
    ∀ (x y x1 y1 dx sx dy sy err : Int) (s : State),
      draw_line_loop_i32 fuel x y x1 y1 dx sx dy sy err s
        = (draw_line_points_i32 fuel x y x1 y1 dx sx dy sy err).map
            (fun pts => plot_points pts s) := by
  induction fuel with
  | zero => intros; rfl
  | succ n ih =>
    intro x y x1 y1 dx sx dy sy err s
    rw [draw_line_loop_i32, draw_line_points_i32]
    by_cases hend : x = x1 ∧ y = y1
    · rw [if_pos hend, if_pos hend]; rfl
    · rw [if_neg hend, if_neg hend]
      simp only [ih]
      generalize draw_line_points_i32 n _ _ x1 y1 dx sx dy sy _ = r
      cases r <;> rfl

/-- The function `draw_line_i32` plots the points of `draw_line_plotted_i32`
and sets the refresh flag. -/
theorem draw_line_i32_eq_plot (fuel : Nat) (x0 y0 x1 y1 : Int) (s : State) :
    draw_line_i32 fuel x0 y0 x1 y1 s
      = (draw_line_plotted_i32 fuel x0 y0 x1 y1).map
          (fun pts => { plot_points pts s with display_needs_refresh := true }) := by
  simp only [draw_line_i32, draw_line_plotted_i32, draw_line_loop_i32_eq_plot]
  generalize draw_line_points_i32 fuel x0 y0 x1 y1 _ _ _ _ _ = r
  cases r <;> rfl

/-- Agreement of the 32-bit loop with the loop on exact integers: with the
relations of `line_step`, an error term between `-3 * b / 2` and `3 * a / 2`,
distances `a`, `b` with `3 * a < 2 ^ 31` and `3 * b < 2 ^ 31`, and the current
point and the end point in the range of `int`, no operation of the loop leaves
the range of `int`, so both loops make the same calls. -/
theorem draw_line_points_i32_eq (fuel : Nat) :
    ∀ (x y x1 y1 a sx b sy err p q : Int),
      (sx = 1 ∨ sx = -1) → (sy = 1 ∨ sy = -1) →
      0 ≤ p → p ≤ a → 0 ≤ q → q ≤ b →
      x1 = x + sx * p → y1 = y + sy * q →
      err = a - b + p * b - q * a →
      -(3 * b) ≤ 2 * err → 2 * err ≤ 3 * a →
      3 * a < 2 ^ 31 → 3 * b < 2 ^ 31 →
      (-(2 ^ 31) ≤ x ∧ x < 2 ^ 31) → (-(2 ^ 31) ≤ x1 ∧ x1 < 2 ^ 31) →
      (-(2 ^ 31) ≤ y ∧ y < 2 ^ 31) → (-(2 ^ 31) ≤ y1 ∧ y1 < 2 ^ 31) →
      draw_line_points_i32 fuel x y x1 y1 a sx (-b) sy err
        = draw_line_points fuel x y x1 y1 a sx (-b) sy err := by
  induction fuel with
  | zero => intros; rfl
  | succ n ih =>
    intro x y x1 y1 a sx b sy err p q hsx hsy hp0 hpa hq0 hqb hx hy herr hlo hhi ha hb
      hxr hx1r hyr hy1r
    rw [draw_line_points_i32, draw_line_points]
    by_cases hend : x = x1 ∧ y = y1
    · rw [if_pos hend, if_pos hend]
    · rw [if_neg hend, if_neg hend]
      obtain ⟨p', q', hp0', hpa', hq0', hqb', hx', hy', herr', -, hpm, hqm, -, -⟩ :=
        line_step x y x1 y1 a sx b sy err p q hp0 hpa hq0 hqb hx hy herr hend
      have he2 : i32 (2 * err) = 2 * err := i32_of_range _ (by omega) (by omega)
      have hnx : (if 2 * err ≥ -b then i32 (x + sx) else x)
          = (if 2 * err ≥ -b then x + sx else x) := by
        split
        · rename_i hX
          rw [if_pos hX] at hpm hx'
          apply i32_of_range
          · rcases hsx with h | h <;> rw [h] at hx hx' ⊢ <;> omega
          · rcases hsx with h | h <;> rw [h] at hx hx' ⊢ <;> omega
        · rfl
      have hny : (if 2 * err ≤ a then i32 (y + sy) else y)
          = (if 2 * err ≤ a then y + sy else y) := by
        split
        · rename_i hY
          rw [if_pos hY] at hqm hy'
          apply i32_of_range
          · rcases hsy with h | h <;> rw [h] at hy hy' ⊢ <;> omega
          · rcases hsy with h | h <;> rw [h] at hy hy' ⊢ <;> omega
        · rfl
      have herr1 : (if 2 * err ≥ -b then i32 (err + -b) else err)
          = (if 2 * err ≥ -b then err + -b else err) := by
        split
        · exact i32_of_range _ (by omega) (by omega)
        · rfl
      have herr2 : (if 2 * err ≤ a then i32 ((if 2 * err ≥ -b then err + -b else err) + a)
            else if 2 * err ≥ -b then err + -b else err)
          = (if 2 * err ≤ a then (if 2 * err ≥ -b then err + -b else err) + a
            else if 2 * err ≥ -b then err + -b else err) := by
        split
        · apply i32_of_range
          · split <;> omega
          · split <;> omega
        · rfl
      have hbound : -(3 * b) ≤ 2 * (if 2 * err ≤ a then
            (if 2 * err ≥ -b then err + -b else err) + a
            else if 2 * err ≥ -b then err + -b else err) ∧
          2 * (if 2 * err ≤ a then (if 2 * err ≥ -b then err + -b else err) + a
            else if 2 * err ≥ -b then err + -b else err) ≤ 3 * a := by
        split <;> split <;> omega
      have hxr' : -(2 ^ 31) ≤ (if 2 * err ≥ -b then x + sx else x) ∧
          (if 2 * err ≥ -b then x + sx else x) < 2 ^ 31 := by
        split
        · rename_i hX
          rw [if_pos hX] at hpm hx'
          rcases hsx with h | h <;> rw [h] at hx hx' ⊢ <;> omega
        · exact hxr
      have hyr' : -(2 ^ 31) ≤ (if 2 * err ≤ a then y + sy else y) ∧
          (if 2 * err ≤ a then y + sy else y) < 2 ^ 31 := by
        split
        · rename_i hY
          rw [if_pos hY] at hqm hy'
          rcases hsy with h | h <;> rw [h] at hy hy' ⊢ <;> omega
        · exact hyr
      simp only [he2, herr1, hnx, hny, herr2]
      rw [ih _ _ x1 y1 a sx b sy _ p' q' hsx hsy hp0' hpa' hq0' hqb' hx' hy' herr'
        hbound.1 hbound.2 ha hb hxr' hx1r hyr' hy1r]

theorem draw_line_points_succ (fuel : Nat) :
    ∀ (x y x1 y1 dx sx dy sy err : Int) (pts : List (Int × Int)),
      draw_line_points fuel x y x1 y1 dx sx dy sy err = some pts →
      draw_line_points (fuel + 1) x y x1 y1 dx sx dy sy err = some pts := by
  induction fuel with
  | zero => intro x y x1 y1 dx sx dy sy err pts h; simp [draw_line_points] at h
  | succ n ih =>
    intro x y x1 y1 dx sx dy sy err pts h
    rw [draw_line_points] at h ⊢
    by_cases hend : x = x1 ∧ y = y1
    · rw [if_pos hend] at h ⊢; exact h
    · rw [if_neg hend] at h ⊢
      simp only at h ⊢
      generalize hr : draw_line_points n (if 2 * err ≥ dy then x + sx else x)
        (if 2 * err ≤ dx then y + sy else y) x1 y1 dx sx dy sy
        (if 2 * err ≤ dx then (if 2 * err ≥ dy then err + dy else err) + dx
          else if 2 * err ≥ dy then err + dy else err) = r at h
      cases r with
      | none => simp at h
      | some pts1 =>
        rw [ih _ _ _ _ _ _ _ _ _ pts1 hr]
        exact h

/-- More iterations than the loop needs do not change its points. -/
theorem draw_line_points_mono (fuel m : Nat) (x y x1 y1 dx sx dy sy err : Int)
    (pts : List (Int × Int))
    (h : draw_line_points fuel x y x1 y1 dx sx dy sy err = some pts) (hm : fuel ≤ m) :
    draw_line_points m x y x1 y1 dx sx dy sy err = some pts := by
  induction m with
  | zero =>
    have h0 : fuel = 0 := by omega
    rw [h0] at h; exact h
  | succ k ih =>
    by_cases hk : fuel ≤ k
    · exact draw_line_points_succ k _ _ _ _ _ _ _ _ _ pts (ih hk)
    · have he : fuel = k + 1 := by omega
      rw [he] at h; exact h

/-- With end points in the range of `int` whose coordinates differ by less than
`2 ^ 31 / 3`, `draw_line` on 32-bit integers plots the points of `draw_line`
on exact integers, for every bound on its iterations that is larger than
`|x1 - x0| + |y1 - y0|`. -/
theorem draw_line_plotted_i32_eq (x0 y0 x1 y1 : Int)
    (hx0 : -(2 ^ 31) ≤ x0 ∧ x0 < 2 ^ 31) (hy0 : -(2 ^ 31) ≤ y0 ∧ y0 < 2 ^ 31)
    (hx1 : -(2 ^ 31) ≤ x1 ∧ x1 < 2 ^ 31) (hy1 : -(2 ^ 31) ≤ y1 ∧ y1 < 2 ^ 31)
    (hdx : 3 * |x1 - x0| < 2 ^ 31) (hdy : 3 * |y1 - y0| < 2 ^ 31)
    (fuel : Nat) (hf : (x1 - x0).natAbs + (y1 - y0).natAbs < fuel) :
    draw_line_plotted_i32 fuel x0 y0 x1 y1 = draw_line_plotted x0 y0 x1 y1 := by
  have ha : (0 : Int) ≤ |x1 - x0| := abs_nonneg _
  have hb : (0 : Int) ≤ |y1 - y0| := abs_nonneg _
  have hxa := le_abs_self (x1 - x0)
  have hxb := neg_abs_le (x1 - x0)
  have hya := le_abs_self (y1 - y0)
  have hyb := neg_abs_le (y1 - y0)
  have e1 : i32 (x1 - x0) = x1 - x0 := i32_of_range _ (by omega) (by omega)
  have e2 : i32 (y1 - y0) = y1 - y0 := i32_of_range _ (by omega) (by omega)
  have e3 : i32 |x1 - x0| = |x1 - x0| := i32_of_range _ (by omega) (by omega)
  have e4 : i32 |y1 - y0| = |y1 - y0| := i32_of_range _ (by omega) (by omega)
  have e5 : i32 (-|y1 - y0|) = -|y1 - y0| := i32_of_range _ (by omega) (by omega)
  have e6 : i32 (|x1 - x0| + -|y1 - y0|) = |x1 - x0| + -|y1 - y0| :=
    i32_of_range _ (by omega) (by omega)
  have hsx : ((if x0 < x1 then 1 else -1 : Int) = 1 ∨ (if x0 < x1 then 1 else -1 : Int) = -1) := by
    split <;> simp
  have hsy : ((if y0 < y1 then 1 else -1 : Int) = 1 ∨ (if y0 < y1 then 1 else -1 : Int) = -1) := by
    split <;> simp
  have hx : x1 = x0 + (if x0 < x1 then 1 else -1 : Int) * |x1 - x0| := by
    split
    · rw [abs_of_nonneg (by omega)]; ring
    · rw [abs_of_nonpos (by omega)]; ring
  have hy : y1 = y0 + (if y0 < y1 then 1 else -1 : Int) * |y1 - y0| := by
    split
    · rw [abs_of_nonneg (by omega)]; ring
    · rw [abs_of_nonpos (by omega)]; ring
  have hagree := draw_line_points_i32_eq fuel x0 y0 x1 y1 |x1 - x0| (if x0 < x1 then 1 else -1)
    |y1 - y0| (if y0 < y1 then 1 else -1) (|x1 - x0| + -|y1 - y0|) |x1 - x0| |y1 - y0|
    hsx hsy ha (le_refl _) hb (le_refl _) hx hy (by ring) (by omega) (by omega) hdx hdy
    hx0 hx1 hy0 hy1
  obtain ⟨pts, hpts, -⟩ := draw_line_plotted_spec x0 y0 x1 y1
  simp only [draw_line_plotted_i32, e1, e2, e3, e4, e5, e6]
  rw [hagree, hpts]
  simp only [draw_line_plotted] at hpts
  exact draw_line_points_mono _ fuel _ _ _ _ _ _ _ _ _ pts hpts (by omega)

/-- With end points in the range of `int` whose coordinates differ by less than
`2 ^ 31 / 3`, `draw_line` on 32-bit integers returns the state of `draw_line`
on exact integers. -/
theorem draw_line_i32_eq (x0 y0 x1 y1 : Int) (s : State)
    (hx0 : -(2 ^ 31) ≤ x0 ∧ x0 < 2 ^ 31) (hy0 : -(2 ^ 31) ≤ y0 ∧ y0 < 2 ^ 31)
    (hx1 : -(2 ^ 31) ≤ x1 ∧ x1 < 2 ^ 31) (hy1 : -(2 ^ 31) ≤ y1 ∧ y1 < 2 ^ 31)
    (hdx : 3 * |x1 - x0| < 2 ^ 31) (hdy : 3 * |y1 - y0| < 2 ^ 31)
    (fuel : Nat) (hf : (x1 - x0).natAbs + (y1 - y0).natAbs < fuel) :
    draw_line_i32 fuel x0 y0 x1 y1 s = draw_line x0 y0 x1 y1 s := by
  rw [draw_line_i32_eq_plot, draw_line_eq_plot,
    draw_line_plotted_i32_eq x0 y0 x1 y1 hx0 hy0 hx1 hy1 hdx hdy fuel hf]

/-- The loop of `draw_line` on 32-bit integers for the end points `(0, 0)` and
`(2 ^ 30, 0)` never breaks: `2 * err` overflows in the first iteration, after
which `err` runs through `-2 ^ 31, -2 ^ 30, 0, 2 ^ 30`, `y` falls by 1 in every
iteration and `x` grows by 1 in every second one, so that `2 * x + y` is `0` or
`-1` modulo `2 ^ 32`, which it is not at the end point. -/
theorem draw_line_points_i32_diverges (fuel : Nat) :
    ∀ x y err : Int,
      ((err = 1073741824 ∨ err = -1073741824) ∧ (2 * x + y) % 4294967296 = 0) ∨
        ((err = -2147483648 ∨ err = 0) ∧ (2 * x + y + 1) % 4294967296 = 0) →
      draw_line_points_i32 fuel x y 1073741824 0 1073741824 1 0 (-1) err = none := by
  induction fuel with
  | zero => intros; rfl
  | succ n ih =>
    intro x y err hJ
    have hend : ¬ (x = 1073741824 ∧ y = 0) := by omega
    rw [draw_line_points_i32, if_neg hend]
    simp only
    rw [ih]
    rcases hJ with ⟨h | h, hm⟩ | ⟨h | h, hm⟩ <;> subst h <;> simp only [i32] <;>
      split_ifs <;> omega

/-! ## Lines without overflow, and with it -/

theorem i32_zero : i32 0 = 0 := by decide

/-- The points of the loop of `draw_line` on 32-bit integers on a horizontal
line of length `a < 2 ^ 30` with `n` steps to go. -/
theorem draw_line_points_i32_horizontal (y a sx sy : Int) (hsx : sx = 1 ∨ sx = -1)
    (ha : a < 2 ^ 30) (n : Nat) :
    ∀ (fuel : Nat) (x : Int), (n : Int) ≤ a → n < fuel →
      (-(2 ^ 31) ≤ x ∧ x < 2 ^ 31) → (-(2 ^ 31) ≤ x + sx * n ∧ x + sx * n < 2 ^ 31) →
      draw_line_points_i32 fuel x y (x + sx * n) y a sx 0 sy a
        = some ((List.range (n + 1)).map (fun k : Nat => (x + sx * k, y))) := by
  induction n with
  | zero =>
    intro fuel x _ hf _ _
    obtain ⟨m, rfl⟩ : ∃ m, fuel = m + 1 := ⟨fuel - 1, by omega⟩
    simp [draw_line_points_i32, List.range_succ]
  | succ n ih =>
    intro fuel x ha' hf hxr hx1r
    obtain ⟨m, rfl⟩ : ∃ m, fuel = m + 1 := ⟨fuel - 1, by omega⟩
    push_cast at ha' hx1r
    have hne : ¬ (x = x + sx * ((n + 1 : Nat) : Int) ∧ y = y) := by
      push_cast
      rcases hsx with h | h <;> rw [h] <;> omega
    have he2 : i32 (2 * a) = 2 * a := i32_of_range _ (by omega) (by omega)
    have hea : i32 a = a := i32_of_range _ (by omega) (by omega)
    have hxs : i32 (x + sx) = x + sx := by
      apply i32_of_range
      · rcases hsx with h | h <;> rw [h] at hx1r ⊢ <;> omega
      · rcases hsx with h | h <;> rw [h] at hx1r ⊢ <;> omega
    have hxsr : -(2 ^ 31) ≤ x + sx ∧ x + sx < 2 ^ 31 := by
      rcases hsx with h | h <;> rw [h] at hx1r ⊢ <;> omega
    have hX : 2 * a ≥ 0 := by omega
    have hY : ¬ 2 * a ≤ a := by omega
    have hx1 : x + sx * ((n + 1 : Nat) : Int) = (x + sx) + sx * (n : Int) := by
      push_cast; ring
    rw [draw_line_points_i32, if_neg hne]
    simp only [he2, hX, hY, if_true, if_false, add_zero, hea, hxs]
    rw [hx1, ih m (x + sx) (by omega) (by omega) hxsr (by rw [← hx1]; push_cast; exact hx1r)]
    rw [List.range_succ_eq_map (n + 1)]
    simp only [List.map_cons, List.map_map, Nat.cast_zero, mul_zero, add_zero]
    congr 2
    apply List.map_congr_left
    intro k _
    simp only [Function.comp_apply, Nat.succ_eq_add_one, Nat.cast_add, Nat.cast_one]
    congr 1
    ring

/-- The points that `draw_line` on 32-bit integers plots on a horizontal line
whose end points are in the range of `int` and less than `2 ^ 30` apart. -/
theorem draw_line_plotted_i32_horizontal (x0 x1 y : Int)
    (hx0 : -(2 ^ 31) ≤ x0 ∧ x0 < 2 ^ 31) (hx1 : -(2 ^ 31) ≤ x1 ∧ x1 < 2 ^ 31)
    (hd : |x1 - x0| < 2 ^ 30) (fuel : Nat) (hf : (x1 - x0).natAbs < fuel) :
    draw_line_plotted_i32 fuel x0 y x1 y
      = some ((List.range ((x1 - x0).natAbs + 1)).map
          (fun k : Nat => (x0 + (if x0 < x1 then 1 else -1 : Int) * k, y))) := by
  have hsx : ((if x0 < x1 then 1 else -1 : Int) = 1 ∨ (if x0 < x1 then 1 else -1 : Int) = -1) := by
    split <;> simp
  have hx : x1 = x0 + (if x0 < x1 then 1 else -1 : Int) * ((x1 - x0).natAbs : Int) := by
    split <;> omega
  have ha : (0 : Int) ≤ |x1 - x0| := abs_nonneg _
  have hxa := le_abs_self (x1 - x0)
  have hxb := neg_abs_le (x1 - x0)
  have e1 : i32 (x1 - x0) = x1 - x0 := i32_of_range _ (by omega) (by omega)
  have e3 : i32 |x1 - x0| = |x1 - x0| := i32_of_range _ (by omega) (by omega)
  have h := draw_line_points_i32_horizontal y |x1 - x0| (if x0 < x1 then 1 else -1)
    (if y < y then 1 else -1) hsx hd (x1 - x0).natAbs fuel x0
    (by rw [Int.natCast_natAbs]) hf hx0 (by rw [← hx]; exact hx1)
  rw [← hx] at h
  simp only [draw_line_plotted_i32, sub_self, i32_zero, abs_zero, neg_zero, add_zero, e1, e3]
  exact h

/-- C12 (amended): on a horizontal line whose end points are in the range of
`int` and less than `2 ^ 30` apart, `draw_line(x0, y, x1, y)` returns and
plots the points `(x, y)` with `x` running from `x0` to `x1`, one step at a
time, upwards when `x0 ≤ x1` and downwards when `x1 ≤ x0`, and nothing else;
`draw_line(0,0,4,0)` plots `(0,0), (1,0), (2,0), (3,0), (4,0)`. -/
theorem draw_line_horizontal (x0 x1 y : Int) (s : State)
    (hx0 : -(2 ^ 31) ≤ x0 ∧ x0 < 2 ^ 31) (hx1 : -(2 ^ 31) ≤ x1 ∧ x1 < 2 ^ 31)
    (hd : |x1 - x0| < 2 ^ 30) :
    ∃ pts,
      (∀ fuel, (x1 - x0).natAbs < fuel →
        draw_line_plotted_i32 fuel x0 y x1 y = some pts ∧
        draw_line_i32 fuel x0 y x1 y s
          = some { plot_points pts s with display_needs_refresh := true }) ∧
      (x0 ≤ x1 → pts = (List.range ((x1 - x0).toNat + 1)).map (fun k : Nat => (x0 + k, y))) ∧
      (x1 ≤ x0 → pts = (List.range ((x0 - x1).toNat + 1)).map (fun k : Nat => (x0 - k, y))) ∧
      (∀ pt ∈ pts, pt.2 = y) ∧
      pts.Nodup ∧
      (∀ fuel, 4 < fuel →
        draw_line_plotted_i32 fuel 0 0 4 0 = some [(0, 0), (1, 0), (2, 0), (3, 0), (4, 0)]) := by
  have hsx : ((if x0 < x1 then 1 else -1 : Int) = 1 ∨ (if x0 < x1 then 1 else -1 : Int) = -1) := by
    split <;> simp
  refine ⟨(List.range ((x1 - x0).natAbs + 1)).map
    (fun k : Nat => (x0 + (if x0 < x1 then 1 else -1 : Int) * k, y)), ?_, ?_, ?_, ?_, ?_, ?_⟩
  · intro fuel hf
    have hpts := draw_line_plotted_i32_horizontal x0 x1 y hx0 hx1 hd fuel hf
    refine ⟨hpts, ?_⟩
    rw [draw_line_i32_eq_plot, hpts]; rfl
  · intro hle
    have hn : (x1 - x0).natAbs = (x1 - x0).toNat := by omega
    rw [hn]
    apply List.map_congr_left
    intro k hk
    rw [List.mem_range] at hk
    by_cases hlt : x0 < x1
    · rw [if_pos hlt, one_mul]
    · have hk0 : k = 0 := by omega
      rw [hk0]
      simp
  · intro hle
    have hn : (x1 - x0).natAbs = (x0 - x1).toNat := by omega
    rw [hn]
    apply List.map_congr_left
    intro k _
    have hlt : ¬ x0 < x1 := by omega
    rw [if_neg hlt]
    congr 1
    ring
  · intro pt hpt
    rw [List.mem_map] at hpt
    obtain ⟨k, _, rfl⟩ := hpt
    rfl
  · apply List.Nodup.map _ (List.nodup_range _)
    intro j k hjk
    simp only [Prod.mk.injEq, and_true] at hjk
    rcases hsx with h | h <;> rw [h] at hjk <;> omega
  · intro fuel hf
    rw [draw_line_plotted_i32_horizontal 0 4 0 (by decide) (by decide) (by decide) fuel
      (by simpa using hf)]
    decide

/-- Witness of C12 (amended): the line from `(7, 3)` back to `(4, 3)`. -/
theorem draw_line_horizontal_witness :
    ∃ pts, (∀ fuel, ((4 : Int) - 7).natAbs < fuel →
        draw_line_plotted_i32 fuel 7 3 4 3 = some pts) ∧
      pts = (List.range (((7 : Int) - 4).toNat + 1)).map
        (fun k : Nat => ((7 : Int) - k, (3 : Int))) := by
  obtain ⟨pts, h1, _, h4, _⟩ :=
    draw_line_horizontal 7 4 3 (litState 0) (by decide) (by decide) (by decide)
  exact ⟨pts, fun fuel hf => (h1 fuel hf).1, h4 (by decide)⟩

/-- C12 as stated fails: for the horizontal line from `(0, 0)` to `(2 ^ 30, 0)`
the product `2 * err` overflows, and the first three calls of `set_pixel` are
for `(0, 0)`, `(0, -1)` and `(1, -2)`. -/
theorem draw_line_horizontal_overflow :
    draw_line_first_calls_i32 3 0 0 1073741824 0 = [(0, 0), (0, -1), (1, -2)] := by
  decide

/-- The loop of `draw_line` on 32-bit integers never breaks for the end points
`(0, 0)` and `(2 ^ 30, 0)`, whatever the bound on its iterations. -/
theorem draw_line_plotted_i32_diverges (fuel : Nat) :
    draw_line_plotted_i32 fuel 0 0 1073741824 0 = none := by
  have h := draw_line_points_i32_diverges fuel 0 0 1073741824 (Or.inl ⟨Or.inl rfl, by decide⟩)
  have e1 : i32 |i32 (1073741824 - 0)| = 1073741824 := by decide
  have e2 : i32 (-(i32 |i32 ((0 : Int) - 0)|)) = 0 := by decide
  have e3 : i32 (1073741824 + 0) = 1073741824 := by decide
  have hsx : (if (0 : Int) < 1073741824 then (1 : Int) else -1) = 1 := by decide
  have hsy : (if (0 : Int) < 0 then (1 : Int) else -1) = -1 := by decide
  simp only [draw_line_plotted_i32, e1, e2, e3, hsx, hsy]
  exact h

/-- C19 (amended): with end points in the range of `int` whose coordinates
differ by less than `2 ^ 31 / 3` (no `int` operation overflows), every point
plotted by `draw_line` lies in the bounding rectangle of the end points; with
both end points on the panel every plotted point passes the range check of
`set_pixel`. -/
theorem draw_line_in_bounding_box (x0 y0 x1 y1 : Int)
    (hx0 : -(2 ^ 31) ≤ x0 ∧ x0 < 2 ^ 31) (hy0 : -(2 ^ 31) ≤ y0 ∧ y0 < 2 ^ 31)
    (hx1 : -(2 ^ 31) ≤ x1 ∧ x1 < 2 ^ 31) (hy1 : -(2 ^ 31) ≤ y1 ∧ y1 < 2 ^ 31)
    (hdx : 3 * |x1 - x0| < 2 ^ 31) (hdy : 3 * |y1 - y0| < 2 ^ 31) :
    ∃ pts,
      (∀ fuel, (x1 - x0).natAbs + (y1 - y0).natAbs < fuel →
        draw_line_plotted_i32 fuel x0 y0 x1 y1 = some pts) ∧
      (∀ pt ∈ pts, min x0 x1 ≤ pt.1 ∧ pt.1 ≤ max x0 x1 ∧
        min y0 y1 ≤ pt.2 ∧ pt.2 ≤ max y0 y1) ∧
      (0 ≤ x0 ∧ x0 < 128 → 0 ≤ y0 ∧ y0 < 64 → 0 ≤ x1 ∧ x1 < 128 → 0 ≤ y1 ∧ y1 < 64 →
        ∀ pt ∈ pts, (0 ≤ pt.1 ∧ pt.1 < 128 ∧ 0 ≤ pt.2 ∧ pt.2 < 64) ∧
          int_to_uint pt.1 < NUM_X_PIXELS ∧ int_to_uint pt.2 < NUM_Y_PIXELS) := by
  obtain ⟨pts, hpts, -, -, -, hbox, -⟩ := draw_line_plotted_spec x0 y0 x1 y1
  refine ⟨pts, ?_, hbox, ?_⟩
  · intro fuel hf
    rw [draw_line_plotted_i32_eq x0 y0 x1 y1 hx0 hy0 hx1 hy1 hdx hdy fuel hf]
    exact hpts
  · intro hpx0 hpy0 hpx1 hpy1 pt hpt
    have h := hbox pt hpt
    have ex : int_to_uint pt.1 = pt.1.toNat := int_to_uint_of_nonneg _ (by omega) (by omega)
    have ey : int_to_uint pt.2 = pt.2.toNat := int_to_uint_of_nonneg _ (by omega) (by omega)
    rw [ex, ey, num_x_pixels_eq, num_y_pixels_eq]
    omega

/-- Witness of C19 (amended): the diagonal of the panel from `(0, 63)` to
`(127, 0)`. -/
theorem draw_line_in_bounding_box_witness :
    ∃ pts,
      (∀ fuel, ((127 : Int) - 0).natAbs + ((0 : Int) - 63).natAbs < fuel →
        draw_line_plotted_i32 fuel 0 63 127 0 = some pts) ∧
      ∀ pt ∈ pts, (0 ≤ pt.1 ∧ pt.1 < 128 ∧ 0 ≤ pt.2 ∧ pt.2 < 64) ∧
        int_to_uint pt.1 < NUM_X_PIXELS ∧ int_to_uint pt.2 < NUM_Y_PIXELS := by
  obtain ⟨pts, h1, _, h3⟩ := draw_line_in_bounding_box 0 63 127 0
    (by decide) (by decide) (by decide) (by decide) (by decide) (by decide)
  exact ⟨pts, h1, h3 (by decide) (by decide) (by decide) (by decide)⟩

/-- C19 as stated fails: for the end points `(0, 0)` and `(2 ^ 30, 0)` the
second call of `set_pixel` is for `(0, -1)`, which lies below the bounding
rectangle of the end points. -/
theorem draw_line_leaves_bounding_box :
    (draw_line_first_calls_i32 2 0 0 1073741824 0)[1]? = some (0, -1) ∧
    ¬ (min (0 : Int) 0 ≤ -1) := by
  decide

/-- C10 (amended): the refresh flag is set after `set_pixel` or `clear_pixel`
with in-range coordinates, after `clear_screen`, after `fb_out_chars` with a
buffer of any length, and after `draw_line` whenever it returns, which it does
for end points in the range of `int` whose coordinates differ by less than
`2 ^ 31 / 3` (no `int` operation overflows); `set_cursor_pos` and out-of-range
pixel calls leave it as it was; no writer turns a set flag into a clear one;
the refresh callback leaves it clear. -/
theorem display_needs_refresh_after_writers (F : Font) (s : State) :
    (∀ x y, x < 128 → y < 64 →
      (set_pixel x y s).display_needs_refresh = true ∧
      (clear_pixel x y s).display_needs_refresh = true) ∧
    (∀ fuel x0 y0 x1 y1 s', draw_line_i32 fuel x0 y0 x1 y1 s = some s' →
      s'.display_needs_refresh = true) ∧
    (∀ x0 y0 x1 y1,
      (-(2 ^ 31) ≤ x0 ∧ x0 < 2 ^ 31) → (-(2 ^ 31) ≤ y0 ∧ y0 < 2 ^ 31) →
      (-(2 ^ 31) ≤ x1 ∧ x1 < 2 ^ 31) → (-(2 ^ 31) ≤ y1 ∧ y1 < 2 ^ 31) →
      3 * |x1 - x0| < 2 ^ 31 → 3 * |y1 - y0| < 2 ^ 31 →
      ∃ s', (∀ fuel, (x1 - x0).natAbs + (y1 - y0).natAbs < fuel →
          draw_line_i32 fuel x0 y0 x1 y1 s = some s') ∧
        s'.display_needs_refresh = true) ∧
    (clear_screen s).display_needs_refresh = true ∧
    (∀ buf, (fb_out_chars F buf s).display_needs_refresh = true) ∧
    (∀ row col,
      (set_cursor_pos F row col s).display_needs_refresh = s.display_needs_refresh) ∧
    (∀ x y, 128 ≤ x ∨ 64 ≤ y →
      (set_pixel x y s).display_needs_refresh = s.display_needs_refresh ∧
      (clear_pixel x y s).display_needs_refresh = s.display_needs_refresh) ∧
    (s.display_needs_refresh = true →
      ∀ x y row col,
        (set_pixel x y s).display_needs_refresh = true ∧
        (clear_pixel x y s).display_needs_refresh = true ∧
        (set_cursor_pos F row col s).display_needs_refresh = true) ∧
    (frame_refresh_callback s).1.display_needs_refresh = false := by
  refine ⟨?_, ?_, ?_, rfl, fun _ => rfl, fun row col => set_cursor_pos_flag F row col s,
    ?_, ?_, ?_⟩
  · intro x y hx hy
    have hc : x < NUM_X_PIXELS ∧ y < NUM_Y_PIXELS := ⟨hx, hy⟩
    simp only [set_pixel, clear_pixel, hc, and_self, if_true]
  · intro fuel x0 y0 x1 y1 s' h
    rw [draw_line_i32_eq_plot] at h
    cases hp : draw_line_plotted_i32 fuel x0 y0 x1 y1 with
    | none => rw [hp] at h; simp at h
    | some pts =>
      rw [hp] at h
      simp only [Option.map_some', Option.some.injEq] at h
      rw [← h]
  · intro x0 y0 x1 y1 hx0 hy0 hx1 hy1 hdx hdy
    obtain ⟨s', hs', hflag⟩ := draw_line_some x0 y0 x1 y1 s
    refine ⟨s', ?_, hflag⟩
    intro fuel hf
    rw [draw_line_i32_eq x0 y0 x1 y1 s hx0 hy0 hx1 hy1 hdx hdy fuel hf]
    exact hs'
  · intro x y h
    have hc : ¬ (x < NUM_X_PIXELS ∧ y < NUM_Y_PIXELS) := by
      simp only [num_x_pixels_eq, num_y_pixels_eq]; omega
    simp only [set_pixel, clear_pixel, hc, if_false, and_self]
  · intro h x y row col
    exact ⟨set_pixel_flag_of_set x y s h, clear_pixel_flag_of_set x y s h,
      (set_cursor_pos_flag F row col s).trans h⟩
  · cases hd : s.display_needs_refresh <;> simp [frame_refresh_callback, hd]

/-- Witness of C10 (amended) on a state with the flag clear (in-range and
out-of-range pixel calls, a line across the panel) and on a state with the
flag set. -/
theorem display_needs_refresh_after_writers_witness :
    ((set_pixel 3 4 (litState 0)).display_needs_refresh = true ∧
      (clear_pixel 3 4 (litState 0)).display_needs_refresh = true) ∧
    (∃ s', (∀ fuel, ((127 : Int) - 0).natAbs + ((63 : Int) - 0).natAbs < fuel →
          draw_line_i32 fuel 0 0 127 63 (litState 0) = some s') ∧
        s'.display_needs_refresh = true) ∧
    ((set_pixel 128 4 (litState 0)).display_needs_refresh = false ∧
      (clear_pixel 128 4 (litState 0)).display_needs_refresh = false) ∧
    ((set_pixel 128 4 (clear_screen (litState 0))).display_needs_refresh = true ∧
      (clear_pixel 3 64 (clear_screen (litState 0))).display_needs_refresh = true ∧
      (set_cursor_pos sampleFont 9 9 (clear_screen (litState 0))).display_needs_refresh = true) :=
  ⟨(display_needs_refresh_after_writers sampleFont (litState 0)).1 3 4 (by decide) (by decide),
    (display_needs_refresh_after_writers sampleFont (litState 0)).2.2.1 0 0 127 63
      (by decide) (by decide) (by decide) (by decide) (by decide) (by decide),
    (display_needs_refresh_after_writers sampleFont (litState 0)).2.2.2.2.2.2.1 128 4
      (Or.inl (by decide)),
    ⟨((display_needs_refresh_after_writers sampleFont (clear_screen (litState 0))).2.2.2.2.2.2.2.1
        rfl 128 4 9 9).1,
      ((display_needs_refresh_after_writers sampleFont (clear_screen (litState 0))).2.2.2.2.2.2.2.1
        rfl 3 64 9 9).2.1,
      ((display_needs_refresh_after_writers sampleFont (clear_screen (litState 0))).2.2.2.2.2.2.2.1
        rfl 128 4 9 9).2.2⟩⟩

/-- C10 as stated fails: for the end points `(0, 0)` and `(2 ^ 30, 0)`, which
are `int` values, `draw_line` called on a fully lit display never returns,
however many iterations its loop is given; there is no state after the call. -/
theorem draw_line_never_returns :
    ¬ ∃ (fuel : Nat) (s' : State),
      draw_line_i32 fuel 0 0 1073741824 0 (litState 0) = some s' := by
  rintro ⟨fuel, s', h⟩
  rw [draw_line_i32_eq_plot, draw_line_plotted_i32_diverges] at h
  simp at h

end LibOled
